import Mathlib

/-!
Verification development for the CTrL task-stream generator
(`ctrl/tasks/task_generator.py`).

The Python module is shallowly embedded: the generator's mutable state
(`task_pool`, the seeded `random.Random` source, configuration flags) becomes
an explicit `GenState` threaded through a state-with-errors monad `GenM`, so
that a raised Python exception is an `Except.error` carrying the state at the
point of failure.  External collaborators (concept pool, transformation pool,
strategy, filesystem, torchvision transforms) are opaque in the source and are
modelled as fields of an `Env` record of abstract functions.
-/

namespace CTrL

/-- Opaque sample value (one row of a sample tensor). -/
abbrev Sample := Nat

/-- Opaque concept handle (concepts live in the external concept pool). -/
abbrev Concept := Nat

/-- A concept-group: the tuple of concepts fused into one category mixture. -/
abbrev ConceptGroup := List Concept

/-- Opaque transformation handle (owned by the transformation pool). -/
abbrev Transformation := Nat

/-- Scalar similarity value returned by the delegated similarity metrics. -/
abbrev SimVal := Int

/-- State of a `numpy` random generator `np.random.default_rng(seed)`:
abstract, identified with the seed and advanced opaquely by the samplers. -/
abbrev NpRng := Nat

/-- Python exception classes that the module can raise or observe. -/
inductive Err where
  | assertionError
  | indexError
  | valueError (msg : String)
  | other (msg : String)
deriving Repr, DecidableEq

/-- Model of a seeded `random.Random` instance: an abstract deterministic
stream of naturals (fixed by the seed) together with a cursor counting how
many draws were made. -/
structure PyRandom where
  stream : Nat → Nat
  pos : Nat

/-- `random.Random.randint(a, b)`: one draw, uniform over the *inclusive*
range `[a, b]`; modelled as the next stream value folded into the range. -/
def PyRandom.randint (r : PyRandom) (a b : Nat) : Nat × PyRandom :=
  (a + r.stream r.pos % (b + 1 - a), ⟨r.stream, r.pos + 1⟩)

/-- `random.Random.sample(range(n), k)`: `k` draws from the stream, each
reduced into `range n`. -/
def PyRandom.sample (r : PyRandom) (n k : Nat) : List Nat × PyRandom :=
  ((List.range k).map (fun j => r.stream (r.pos + j) % max n 1),
   ⟨r.stream, r.pos + k⟩)

/-- The durable `Task` entity (`ctrl.tasks.task.Task` is external to the
module; its fields are those the generator sets and reads).  `samples` holds,
per split, the pair (sample tensor, label tensor); a label tensor is a list of
rows, each row of shape `(1,)`. -/
structure Task where
  id : Nat
  name : Option String
  samples : List (List Sample × List (List Nat))
  split_names : List String
  src_concepts : List ConceptGroup
  attributes : Bool × List Nat
  transformation : Transformation
  n_samples_per_class : List Nat
  creator : String
  save_path : List String
  meta : Nat
deriving Repr, DecidableEq

/-- Default task used only as the (never inspected) default of `getLastD` /
`getD` lookups on non-empty pools. -/
def dTask : Task :=
  { id := 0, name := none, samples := [], split_names := [], src_concepts := [],
    attributes := (true, []), transformation := 0, n_samples_per_class := [],
    creator := "", save_path := [], meta := 0 }

/-- The ephemeral task specification (`SimpleNamespace` built in `add_task`). -/
structure TaskSpec where
  src_concepts : List ConceptGroup
  attributes : Bool × List Nat
  transformation : Transformation
  n_samples_per_class : List Nat
deriving Repr, DecidableEq

/-- Contents of a persisted file: either a `(xs, ys)` data pair saved by
`torch.save`, or a metadata dictionary (opaque). -/
inductive FileVal where
  | data (xs : List Sample) (ys : List (List Nat))
  | meta (m : Nat)
deriving Repr, DecidableEq

/-- The external collaborators of the generator, all opaque to the module:
the concept pool, the transformation pool, the strategy, the torchvision
transforms used by `augment_samples`, and the filesystem. -/
structure Env where
  /-- `random.Random(seed)`: the deterministic stream fixed by a seed. -/
  streamOfSeed : Nat → Nat → Nat
  /-- `concept_pool.get_compatible_concepts(k, leaf_only=True)`. -/
  getCompatibleConcepts : Nat → Except Err (List Concept)
  /-- `len(concept_pool.attributes)`. -/
  nAvailAttrs : Nat
  /-- `transformation_pool.get_transformation()`. -/
  getTransformation : Except Err Transformation
  /-- `strat.new_task(spec, concept_pool, transformation_pool, task_pool)`. -/
  strategyNewTask : TaskSpec → List Task → Except Err TaskSpec
  /-- `strat.descr()`. -/
  stratDescr : String
  /-- `ComposedConcept(group)._get_samples(n, attributes, split_id, rng)`,
  threading the numpy rng it advances. -/
  mixtureGetSamples : ConceptGroup → List Nat → Nat → Nat → NpRng →
    Except Err (List Sample × NpRng)
  /-- The random perturbation pipeline of `augment_samples`
  (`RandomHorizontalFlip` + `RandomCrop`), indexed by the invocation counter
  standing for the global torch rng draws it consumes. -/
  transPerturb : Nat → Sample → Sample
  /-- The unperturbed `ToTensor(ToPILImage(sample))` re-encoding. -/
  reencode : Sample → Sample
  /-- Applying a transformation to one split's sample tensor. -/
  applyTrans : Transformation → List Sample → Except Err (List Sample)
  /-- `x.view(x.size(0), -1)` restricted to one row: flattening a sample. -/
  flattenSample : Sample → Sample
  /-- The filesystem seen by `load_task` (`os.path.isfile` + `torch.load`). -/
  fs : String → Option FileVal
  /-- `transformation_pool.transformations_sim`. -/
  transSim : Transformation → Transformation → SimVal
  /-- `concept_pool.y_attributes_sim`. -/
  yAttrSim : (Bool × List Nat) → (Bool × List Nat) → SimVal
  /-- `concept_pool.categories_sim`. -/
  catSim : List ConceptGroup → List ConceptGroup → SimVal
  /-- Wall-clock duration of one delegated similarity call (opaque). -/
  timeCost : Char → Task → Task → Nat

/-- Mutable state of a `TaskGenerator` instance, together with the ambient
process-global torch RNG state (`torch_rng`) the torchvision transforms of
`augment_samples` consume: that state travels with the running generator but
is owned by the process — it is never derived from, or reset by, the
generator's seed. -/
structure GenState where
  task_pool : List Task
  rnd : PyRandom
  torch_rng : Nat
  n_samples_per_class : List Nat
  split_names : List String
  flatten : Bool
  tta : Bool
  n_initial_classes : Nat
  use_cat_id : Bool
  contains_loaded_tasks : Bool

/-- Computations over one generator: they may raise (left component) and
always report the state reached, so a raised exception preserves whatever
mutations happened before the raise. -/
def GenM (α : Type) : Type := GenState → Except Err α × GenState

def GenM.pure (a : α) : GenM α := fun s => (Except.ok a, s)

def GenM.bind (m : GenM α) (f : α → GenM β) : GenM β := fun s =>
  match m s with
  | (Except.ok a, s') => f a s'
  | (Except.error e, s') => (Except.error e, s')

instance : Monad GenM where
  pure := GenM.pure
  bind := GenM.bind

def GenM.get : GenM GenState := fun s => (Except.ok s, s)

def GenM.set (s : GenState) : GenM Unit := fun _ => (Except.ok (), s)

def GenM.modify (f : GenState → GenState) : GenM Unit :=
  fun s => (Except.ok (), f s)

def GenM.throw (e : Err) : GenM α := fun s => (Except.error e, s)

def GenM.lift (x : Except Err α) : GenM α := fun s => (x, s)

/-- A conditional `raise`/failed `assert`: raise `e` when `cond` holds. -/
def GenM.raiseIf (cond : Prop) [Decidable cond] (e : Err) : GenM PUnit :=
  if cond then GenM.throw e else GenM.pure PUnit.unit

/-- `TaskGenerator.__init__`: checks
`len(samples_per_class) == len(split_names)` and seeds the random source.
`torch_rng` is not a constructor argument: it is whatever the ambient
process-global torch RNG state happens to be at construction time. -/
def TaskGenerator.mkState (env : Env) (samples_per_class : List Nat)
    (split_names : List String) (seed : Nat) (flatten : Bool)
    (n_initial_classes : Nat) (use_cat_id : Bool) (tta : Bool)
    (torch_rng : Nat) :
    Except Err GenState :=
  if samples_per_class.length = split_names.length then
    Except.ok
      { task_pool := []
        rnd := ⟨env.streamOfSeed seed, 0⟩
        torch_rng := torch_rng
        n_samples_per_class := samples_per_class
        split_names := split_names
        flatten := flatten
        tta := tta
        n_initial_classes := n_initial_classes
        use_cat_id := use_cat_id
        contains_loaded_tasks := false }
  else Except.error Err.assertionError

/-- `augment_samples`: the first loop appends, for each sample in order, its
four randomly perturbed variants; every `trans(sample)` call consumes the
process-global torch randomness, modelled by the ambient counter `g` that is
threaded across calls (never reset); the second loop appends one unperturbed
re-encoding of every sample; the final `torch.stack(aug_samples)` raises on
an empty list. -/
def augment_samples (env : Env) (g : Nat) (samples : List Sample) :
    Except Err (List Sample × Nat) :=
  let aug1 := samples.foldl
    (fun (acc : List Sample × Nat) sample =>
      (List.range 4).foldl
        (fun (a : List Sample × Nat) _ =>
          (a.1 ++ [env.transPerturb a.2 sample], a.2 + 1)) acc)
    ([], g)
  match aug1.1 ++ samples.map env.reencode with
  | [] => Except.error (Err.other "stack expects a non-empty list")
  | x :: rest => Except.ok (x :: rest, aug1.2)

/-- Inner loop of `_generate_samples_from_descr`:
`for s_id, n in enumerate(n_samples_per_class)`, drawing each split's samples
from the mixture, augmenting the flagged splits and attaching category
label `i` to each drawn row. -/
def splitLoop (env : Env) (cat_concepts : ConceptGroup) (attrs : List Nat)
    (augment : List Nat) (i : Nat) :
    Nat → List Nat → NpRng → Nat →
      Except Err (List (List Sample) × List (List (List Nat)) × NpRng × Nat)
  | _, [], r, g => Except.ok ([], [], r, g)
  | s_id, n :: rest, r, g => do
    let (split_samples, r') ← env.mixtureGetSamples cat_concepts attrs n s_id r
    let (split_samples, g') ←
      if s_id ∈ augment then augment_samples env g split_samples
      else Except.ok (split_samples, g)
    let split_labels := List.replicate split_samples.length [i]
    let (cs, cl, r'', g'') ←
      splitLoop env cat_concepts attrs augment i (s_id + 1) rest r' g'
    Except.ok (split_samples :: cs, split_labels :: cl, r'', g'')

/-- Outer loop of `_generate_samples_from_descr`:
`for i, cat_concepts in enumerate(categories)`. -/
def catLoop (env : Env) (attrs : List Nat) (n_samples_per_class : List Nat)
    (augment : List Nat) :
    Nat → List ConceptGroup → NpRng → Nat →
      Except Err (List (List (List Sample)) ×
                  List (List (List (List Nat))) × NpRng × Nat)
  | _, [], r, g => Except.ok ([], [], r, g)
  | i, cat :: rest, r, g => do
    let (catS, catL, r', g') ←
      splitLoop env cat attrs augment i 0 n_samples_per_class r g
    let (accS, accL, r'', g'') ←
      catLoop env attrs n_samples_per_class augment (i + 1) rest r' g'
    Except.ok (catS :: accS, catL :: accL, r'', g'')

/-- `_generate_samples_from_descr`: asserts the v1 contract
(`use_cat_id and not attributes`), runs the two nested sampling loops, and
transposes per-category results into per-split concatenated tensors
(`zip(*samples)` then `torch.cat`); evaluating `samples[0][0]` for the
tensor-type dispatch raises `IndexError` when there is no category or no
split. -/
def _generate_samples_from_descr (env : Env) (categories : List ConceptGroup)
    (attributes : Bool × List Nat) (n_samples_per_class : List Nat)
    (augment : List Nat) (rnd : NpRng) (g : Nat) :
    Except Err (List (List Sample) × List (List (List Nat)) × Nat) := do
  let (use_cat_id, attrs) := attributes
  if ¬ (use_cat_id = true ∧ attrs = []) then
    throw Err.assertionError
  let (samples, labels, _, g') ←
    catLoop env attrs n_samples_per_class augment 0 categories rnd g
  match samples with
  | [] => throw Err.indexError
  | s0 :: _ =>
    match s0 with
    | [] => throw Err.indexError
    | _ :: _ =>
      let nSplits := n_samples_per_class.length
      Except.ok
        ((List.range nSplits).map
           (fun s => (samples.map (fun c => c.getD s [])).flatten),
         (List.range nSplits).map
           (fun s => (labels.map (fun c => c.getD s [])).flatten),
         g')

/-- `TaskGenerator.get_samples`: derives one fresh per-call seed from the
generator's own random source (`self.rnd.randint(0, int(1e9))`), synthesizes
per-split tensors with it, then applies the input transformation to every
split's samples. -/
def get_samples (env : Env) (concepts : List ConceptGroup)
    (attributes : Bool × List Nat) (transformation : Transformation)
    (n_samples_per_class : List Nat) : GenM (List (List Sample × List (List Nat))) :=
  fun st =>
    let augment := if st.tta then [1] else []
    let seedRnd := st.rnd.randint 0 (10 ^ 9)
    let st' := { st with rnd := seedRnd.2 }
    match _generate_samples_from_descr env concepts attributes
        n_samples_per_class augment seedRnd.1 st.torch_rng with
    | Except.error e => (Except.error e, st')
    | Except.ok (samples, labels, g') =>
      match samples.mapM (env.applyTrans transformation) with
      | Except.error e => (Except.error e, { st' with torch_rng := g' })
      | Except.ok samples' =>
        (Except.ok (samples'.zip labels), { st' with torch_rng := g' })

/-- `TaskGenerator._create_new_task`: samples `n_initial_classes` compatible
leaf concepts, checks the attribute budget, draws attribute indices, picks a
transformation, and wraps each concept as its own singleton concept-group. -/
def _create_new_task (env : Env) (n_attributes : Nat) :
    GenM (List ConceptGroup × (Bool × List Nat) × Transformation × List Nat) := do
  let st ← GenM.get
  let concepts ← GenM.lift (env.getCompatibleConcepts st.n_initial_classes)
  let _chk ← GenM.raiseIf (n_attributes > env.nAvailAttrs)
    (Err.valueError "attributes")
  let st ← GenM.get
  let (attributes, rnd') := st.rnd.sample env.nAvailAttrs n_attributes
  GenM.set { st with rnd := rnd' }
  GenM.pure (concepts.map (fun c => [c]), (st.use_cat_id, attributes),
             (← GenM.lift env.getTransformation), st.n_samples_per_class)

/-- `TaskGenerator._create_task`: synthesizes the samples, optionally
flattens every split's inputs, and wraps everything into a `Task` (the caller
appends it and assigns the id). -/
def _create_task (env : Env) (spec : TaskSpec) (name : Option String)
    (save_path : Option String) : GenM Task := do
  let samples ← get_samples env spec.src_concepts spec.attributes
    spec.transformation spec.n_samples_per_class
  let st ← GenM.get
  let samples :=
    if st.flatten then samples.map (fun p => (p.1.map env.flattenSample, p.2))
    else samples
  GenM.pure
    { id := 0, name := name, samples := samples, split_names := st.split_names,
      src_concepts := spec.src_concepts, attributes := spec.attributes,
      transformation := spec.transformation,
      n_samples_per_class := spec.n_samples_per_class,
      creator := env.stratDescr,
      save_path := match save_path with | some p => [p] | none => [],
      meta := 0 }

/-- `TaskGenerator.add_task`: builds the candidate spec (from scratch for the
first task, otherwise from the last task), lets the strategy evolve it,
checks the per-split count length, materializes the task, assigns
`id = len(task_pool)` and appends. -/
def add_task (env : Env) (name : Option String) (save_path : Option String) :
    GenM Task := do
  let st ← GenM.get
  let new_task_id := st.task_pool.length
  let quad ←
    if new_task_id = 0 then
      _create_new_task env 0
    else
      let last := st.task_pool.getLastD dTask
      GenM.pure (last.src_concepts, last.attributes, last.transformation,
                 last.n_samples_per_class)
  let cur_task_spec : TaskSpec :=
    { src_concepts := quad.1, attributes := quad.2.1,
      transformation := quad.2.2.1, n_samples_per_class := quad.2.2.2 }
  let cur_task_spec ← GenM.lift (env.strategyNewTask cur_task_spec st.task_pool)
  let _chk ← GenM.raiseIf
    (cur_task_spec.n_samples_per_class.length ≠ st.split_names.length)
    Err.assertionError
  let new_task ← _create_task env cur_task_spec name save_path
  let new_task := { new_task with id := new_task_id }
  GenM.modify (fun s => { s with task_pool := s.task_pool ++ [new_task] })
  GenM.pure new_task

/-- `os.path.join` for the relative paths built by `load_task`. -/
def pathJoin (a b : String) : String := a ++ "/" ++ b

/-- `TaskGenerator.load_task`: reads the three hard-coded split files
`{task_name}_{split}.pth` for `split in ['train', 'val', 'test']` (asserting
each exists), optionally reads the `{task_name}.meta` sidecar, constructs the
`Task` with the generator's own `split_names` and `id = len(task_pool)`,
records the save paths, appends it and marks the pool as containing loaded
tasks. -/
def load_task (env : Env) (task_name load_path : String) : GenM Task := do
  let splits := ["train", "val", "test"]
  let (samples, save_paths) ← splits.foldlM
    (fun (acc : List (List Sample × List (List Nat)) × List String) split => do
      let file_path := pathJoin load_path (task_name ++ "_" ++ split ++ ".pth")
      match env.fs file_path with
      | none => GenM.throw Err.assertionError
      | some (FileVal.meta _) => GenM.throw (Err.other "not a data file")
      | some (FileVal.data xs ys) =>
        GenM.pure (acc.1 ++ [(xs, ys)], acc.2 ++ [file_path]))
    ([], [])
  let metadata_file := pathJoin load_path (task_name ++ ".meta")
  let meta ←
    match env.fs metadata_file with
    | some (FileVal.meta m) => GenM.pure m
    | some (FileVal.data _ _) => GenM.throw (Err.other "bad metadata")
    | none => GenM.pure 0
  let st ← GenM.get
  let task : Task :=
    { id := st.task_pool.length, name := some task_name, samples := samples,
      split_names := st.split_names, src_concepts := [],
      attributes := (true, []), transformation := 0,
      n_samples_per_class := [], creator := "", save_path := save_paths,
      meta := meta }
  GenM.set { st with task_pool := st.task_pool ++ [task],
                     contains_loaded_tasks := true }
  GenM.pure task

/-- One delegated similarity computation for one axis character
(`get_similarity`'s per-char dispatch). -/
def simOf (env : Env) (c : Char) (t1 t2 : Task) : Except Err SimVal :=
  if c = 'x' then
    Except.ok (env.transSim t1.transformation t2.transformation)
  else if c = 'y' then
    Except.ok (env.yAttrSim t1.attributes t2.attributes)
  else if c = 'z' then
    Except.ok (env.catSim t1.src_concepts t2.src_concepts)
  else Except.error (Err.valueError "Unknown component")

/-- `TaskGenerator.get_similarity`: per requested axis character, the
delegated scalar similarity and the elapsed wall-clock time. -/
def get_similarity (env : Env) (t1 t2 : Task) (component : Option (List Char)) :
    Except Err (List SimVal × List Nat) := do
  let comp := component.getD ['x', 'y', 'z']
  let res ← comp.mapM (fun c => simOf env c t1 t2)
  Except.ok (res, comp.map (fun c => env.timeCost c t1 t2))

/-- One point update of the similarity tensor `similarities[i, j] = v`. -/
def updMat (m : Nat → Nat → List SimVal) (i j : Nat) (v : List SimVal) :
    Nat → Nat → List SimVal :=
  fun a b => if a = i ∧ b = j then v else m a b

/-- The body of the inner `for j, t2 in enumerate(self.task_pool[i:])` loop
of `get_similarities`: compute the pairwise similarity of `task_pool[i]` and
`task_pool[i + j]`, write it to both `[i, i+j]` and `[i+j, i]`, accumulate
the per-axis times. -/
def simStepM (env : Env) (pool : List Task) (comp : List Char) (i : Nat)
    (acc2 : (Nat → Nat → List SimVal) × List Nat) (j : Nat) :
    Except Err ((Nat → Nat → List SimVal) × List Nat) := do
  let t1 := pool.getD i dTask
  let t2 := pool.getD (i + j) dTask
  let (sim, tm) ← get_similarity env t1 t2 (some comp)
  Except.ok (updMat (updMat acc2.1 i (i + j) sim) (i + j) i sim,
             List.zipWith (· + ·) acc2.2 tm)

/-- `TaskGenerator.get_similarities`: iterates `i` over the pool and `j` over
`task_pool[i:]` (so the column index is `i + j`), writes each pairwise result
to both `[i, i+j]` and `[i+j, i]` of the zero-initialized
`n × n × len(component)` tensor, accumulates per-axis times, collects the
axis characters whose cumulative time exceeds 1 second (the warning log), and
returns the per-axis matrix slices keyed by character
(`dict(zip(component, similarities.unbind(-1)))`). -/
def get_similarities (env : Env) (st : GenState)
    (component : Option (List Char)) :
    Except Err (List (Char × (Nat → Nat → SimVal)) × List Char) := do
  let comp := component.getD ['x', 'y', 'z']
  let n := st.task_pool.length
  let (similarities, times) ← (List.range n).foldlM
    (fun acc i =>
      (List.range (n - i)).foldlM (simStepM env st.task_pool comp i) acc)
    (fun _ _ => List.replicate comp.length (0 : SimVal),
     List.replicate comp.length (0 : Nat))
  let warnings := ((comp.zip times).filter (fun p => 1 < p.2)).map Prod.fst
  Except.ok
    (comp.enum.map (fun p => (p.2, fun a b => (similarities a b).getD p.1 0)),
     warnings)

/-- The iterator object returned by `TaskGenerator.__iter__`. -/
structure TaskGenIter where
  n : Nat
deriving Repr, DecidableEq

/-- Outcome of one `TaskGenIter.__next__` call. -/
inductive IterResult where
  | yield (t : Task) (it : TaskGenIter)
  | stop
  | error (e : Err)
deriving Repr, DecidableEq

/-- `TaskGenerator.__iter__`: a fresh cursor at position 0 over the shared,
growing pool. -/
def TaskGenerator.iter (_st : GenState) : TaskGenIter := ⟨0⟩

/-- `TaskGenIter.__next__`: yield `task_pool[n]` when materialized, otherwise
(after the internal `assert n == len(task_pool)`) try `add_task()`, turning an
`IndexError` into `StopIteration`; the cursor advances only on a successful
yield. -/
def iterNext (env : Env) (it : TaskGenIter) (st : GenState) :
    IterResult × GenState :=
  if h : it.n < st.task_pool.length then
    (IterResult.yield (st.task_pool.get ⟨it.n, h⟩) ⟨it.n + 1⟩, st)
  else if it.n = st.task_pool.length then
    match add_task env none none st with
    | (Except.ok t, st') => (IterResult.yield t ⟨it.n + 1⟩, st')
    | (Except.error Err.indexError, st') => (IterResult.stop, st')
    | (Except.error e, st') => (IterResult.error e, st')
  else (IterResult.error Err.assertionError, st)

/-- A pool-growing call: `add_task` or `load_task`. -/
inductive GrowOp where
  | add (name save_path : Option String)
  | load (task_name load_path : String)

/-- Dispatch one growing call. -/
def runGrow (env : Env) (op : GrowOp) : GenM Task :=
  match op with
  | GrowOp.add n p => add_task env n p
  | GrowOp.load tn lp => load_task env tn lp

/-- Run a sequence of growing calls, keeping the state reached whether each
call succeeds or raises. -/
def runGrowSeq (env : Env) : List GrowOp → GenState → GenState
  | [], st => st
  | op :: ops, st => runGrowSeq env ops (runGrow env op st).2

/-- One step of the two-run determinism experiment: an `add_task` call or a
raw `get_samples` call with explicit arguments. -/
inductive DriveOp where
  | addTask (name save_path : Option String)
  | getSamples (concepts : List ConceptGroup) (attributes : Bool × List Nat)
      (transformation : Transformation) (nspc : List Nat)

/-- Per-step observable of the determinism experiment: the per-split
(sample tensor, label tensor) pairs produced by the call. -/
def driveOne (env : Env) (op : DriveOp) :
    GenM (List (List Sample × List (List Nat))) :=
  match op with
  | DriveOp.addTask n p => do
    let t ← add_task env n p
    GenM.pure t.samples
  | DriveOp.getSamples c a tr nspc => get_samples env c a tr nspc

/-- Drive a generator through a call sequence, collecting every call's
outcome (tensors or error). -/
def drive (env : Env) :
    List DriveOp → GenState →
      List (Except Err (List (List Sample × List (List Nat)))) × GenState
  | [], st => ([], st)
  | op :: ops, st =>
    let (r, st') := driveOne env op st
    let (rs, st'') := drive env ops st'
    (r :: rs, st'')

/-! ### Concrete instances used by witnesses and counterexamples -/

/-- A fully concrete, benign environment: the concept pool serves `k`
distinct concepts, the mixture draws `n` distinguishable samples per request,
the strategy is the identity, transformations are the identity, and the
filesystem is empty. -/
def envW : Env :=
  { streamOfSeed := fun _ _ => 0
    getCompatibleConcepts := fun k => Except.ok (List.range k)
    nAvailAttrs := 2
    getTransformation := Except.ok 7
    strategyNewTask := fun s _ => Except.ok s
    stratDescr := "strat"
    mixtureGetSamples := fun g _ n sid r =>
      Except.ok ((List.range n).map (fun j => (g.headD 0) * 1000 + sid * 100 + j), r + 1)
    transPerturb := fun k s => s * 100 + k + 1
    reencode := fun s => s
    applyTrans := fun _ xs => Except.ok xs
    flattenSample := fun s => s
    fs := fun _ => none
    transSim := fun a b => (a : Int) + b
    yAttrSim := fun _ _ => 2
    catSim := fun _ _ => 3
    timeCost := fun _ _ _ => 0 }

/-- A freshly constructed generator state for the spec's scenario:
`samples_per_class = [10, 5, 5]`, `split_names = [train, val, test]`,
`n_initial_classes = 3`, `tta = True`. -/
def stW : GenState :=
  { task_pool := [], rnd := ⟨fun _ => 0, 0⟩, torch_rng := 0,
    n_samples_per_class := [10, 5, 5],
    split_names := ["train", "val", "test"], flatten := false, tta := true,
    n_initial_classes := 3, use_cat_id := true, contains_loaded_tasks := false }

/-- `envW` with a mixture sampler that reports the numpy seed it was handed
(each drawn sample equals the current rng value), exposing the per-call
derived seed in the output. -/
def envLeak : Env :=
  { envW with mixtureGetSamples := fun _ _ n _ r =>
      Except.ok (List.replicate n r, r + 1) }

/-- A generator state whose random stream next yields `10 ^ 9`. -/
def stBad : GenState :=
  { stW with rnd := ⟨fun _ => 10 ^ 9, 0⟩, tta := false }

/-! ### Basic lemmas about the `GenM` monad -/

theorem GenM.bind_apply {α β : Type} (m : GenM α) (f : α → GenM β) (s : GenState) :
    (m >>= f) s =
      match m s with
      | (Except.ok a, s') => f a s'
      | (Except.error e, s') => (Except.error e, s') := rfl

theorem GenM.pure_apply {α : Type} (a : α) (s : GenState) :
    (pure a : GenM α) s = (Except.ok a, s) := rfl

theorem GenM.purePlain_apply {α : Type} (a : α) (s : GenState) :
    GenM.pure a s = (Except.ok a, s) := rfl

theorem GenM.raiseIf_pos {cond : Prop} [Decidable cond] (h : cond) (e : Err)
    (s : GenState) : GenM.raiseIf cond e s = (Except.error e, s) := by
  unfold GenM.raiseIf
  rw [if_pos h]
  rfl

theorem GenM.raiseIf_neg {cond : Prop} [Decidable cond] (h : ¬ cond) (e : Err)
    (s : GenState) : GenM.raiseIf cond e s = (Except.ok PUnit.unit, s) := by
  unfold GenM.raiseIf
  rw [if_neg h]
  rfl

theorem GenM.get_apply (s : GenState) : GenM.get s = (Except.ok s, s) := rfl

theorem GenM.set_apply (s₀ s : GenState) :
    GenM.set s₀ s = (Except.ok (), s₀) := rfl

theorem GenM.modify_apply (f : GenState → GenState) (s : GenState) :
    GenM.modify f s = (Except.ok (), f s) := rfl

theorem GenM.throw_apply {α : Type} (e : Err) (s : GenState) :
    (GenM.throw e : GenM α) s = (Except.error e, s) := rfl

theorem GenM.lift_apply {α : Type} (x : Except Err α) (s : GenState) :
    GenM.lift x s = (x, s) := rfl

/-! ### The augmentation order (claim C7) -/

/-- Sample-major closed form of the perturbation loop: each original sample
contributes its four perturbed variants consecutively, the call counter
starting at `k`. -/
def augBlocks (env : Env) (k : Nat) : List Sample → List Sample
  | [] => []
  | s :: rest =>
    ((List.range 4).map (fun i => env.transPerturb (k + i) s)) ++
      augBlocks env (k + 4) rest

/-- Variant-major order, modelled from the spec's ordering sentence (for
comparison with the code's `augment_samples`): all originals' first perturbed
variant, then all their second variants, and so on, then the unperturbed
re-encoded copies.  (The `j`-th variant of the `p`-th original consumes
ambient rng counter `g + 4 * p + j`, as in the code; the final stack and the
counter accounting are as in the code.) -/
def augment_samples_variant_major (env : Env) (g : Nat)
    (samples : List Sample) : Except Err (List Sample × Nat) :=
  match (((List.range 4).map (fun i =>
        samples.enum.map
          (fun p => env.transPerturb (g + 4 * p.1 + i) p.2))).flatten
      ++ samples.map env.reencode) with
  | [] => Except.error (Err.other "stack expects a non-empty list")
  | x :: rest => Except.ok (x :: rest, g + 4 * samples.length)

theorem range_four : List.range 4 = [0, 1, 2, 3] := rfl

theorem augInner_eq (env : Env) (s : Sample) (acc : List Sample) (k : Nat) :
    (List.range 4).foldl
      (fun (a : List Sample × Nat) _ =>
        (a.1 ++ [env.transPerturb a.2 s], a.2 + 1)) (acc, k) =
    (acc ++ (List.range 4).map (fun i => env.transPerturb (k + i) s), k + 4) := by
  rw [range_four]
  simp [List.foldl, List.append_assoc]

theorem augFold_eq (env : Env) :
    ∀ (samples : List Sample) (acc : List Sample) (k : Nat),
      samples.foldl
        (fun (acc : List Sample × Nat) sample =>
          (List.range 4).foldl
            (fun (a : List Sample × Nat) _ =>
              (a.1 ++ [env.transPerturb a.2 sample], a.2 + 1)) acc)
        (acc, k) =
      (acc ++ augBlocks env k samples, k + 4 * samples.length)
  | [], acc, k => by simp [augBlocks]
  | s :: rest, acc, k => by
    rw [List.foldl_cons, augInner_eq, augFold_eq env rest, augBlocks]
    refine Prod.ext ?_ ?_
    · rw [List.append_assoc]
    · simp [List.length_cons, Nat.mul_succ]
      omega

theorem augment_samples_eq (env : Env) (g : Nat) (samples : List Sample)
    (hne : samples ≠ []) :
    augment_samples env g samples =
      Except.ok (augBlocks env g samples ++ samples.map env.reencode,
                 g + 4 * samples.length) := by
  unfold augment_samples
  rw [augFold_eq]
  simp only [List.nil_append]
  split
  · rename_i heq
    obtain ⟨h1, h2⟩ := List.append_eq_nil.mp heq
    exact absurd (List.map_eq_nil.mp h2) hne
  · rename_i x rest heq
    rw [heq]

theorem augBlocks_length (env : Env) :
    ∀ (k : Nat) (samples : List Sample),
      (augBlocks env k samples).length = 4 * samples.length
  | _, [] => rfl
  | k, s :: rest => by
    simp [augBlocks, augBlocks_length env (k + 4) rest, Nat.mul_succ,
          Nat.add_comm]

theorem augment_samples_length (env : Env) (g : Nat)
    (samples out : List Sample) (g' : Nat)
    (h : augment_samples env g samples = Except.ok (out, g')) :
    out.length = 5 * samples.length ∧ g' = g + 4 * samples.length := by
  cases samples with
  | nil => exact Except.noConfusion h
  | cons a l =>
    rw [augment_samples_eq env g (a :: l) (by simp)] at h
    injection h with h1
    rw [show out = augBlocks env g (a :: l) ++ (a :: l).map env.reencode from
          congrArg Prod.fst h1.symm,
        show g' = g + 4 * (a :: l).length from congrArg Prod.snd h1.symm]
    constructor
    · simp [augBlocks_length]
      ring
    · rfl

/-- Claim C7, as stated, is false: on the two-sample input `[0, 1]` with the
distinguishable perturbation pipeline of `envW` (and ambient rng state 0),
`augment_samples` produces the sample-major list
`[1, 2, 3, 4, 105, 106, 107, 108, 0, 1]` (each original's four variants
consecutive), not the variant-major order the claim asserts, which would be
`[1, 105, 2, 106, 3, 107, 4, 108, 0, 1]`. -/
theorem c7_order_counterexample :
    augment_samples envW 0 [0, 1] =
      Except.ok ([1, 2, 3, 4, 105, 106, 107, 108, 0, 1], 8) ∧
    augment_samples_variant_major envW 0 [0, 1] =
      Except.ok ([1, 105, 2, 106, 3, 107, 4, 108, 0, 1], 8) ∧
    ([1, 2, 3, 4, 105, 106, 107, 108, 0, 1] : List Sample) ≠
      [1, 105, 2, 106, 3, 107, 4, 108, 0, 1] :=
  ⟨rfl, rfl, by decide⟩

/-- Claim C7 (amended): for every non-empty input (and any ambient rng
state), the augmented split succeeds, has exactly 5 times the original
sample count, and is ordered sample-major: each original's four perturbed
variants appear consecutively (originals in input order), followed by one
unperturbed re-encoded copy of every original in input order. -/
theorem c7_order_amended (env : Env) (g : Nat) (samples : List Sample)
    (hne : samples ≠ []) :
    augment_samples env g samples =
      Except.ok (augBlocks env g samples ++ samples.map env.reencode,
                 g + 4 * samples.length) ∧
    (augBlocks env g samples ++ samples.map env.reencode).length =
      5 * samples.length :=
  ⟨augment_samples_eq env g samples hne,
   (augment_samples_length env g samples _ _
      (augment_samples_eq env g samples hne)).1⟩

/-- Witness for `c7_order_amended` on the concrete input `[0, 1]`. -/
theorem c7_order_amended_witness :
    ([0, 1] : List Sample) ≠ [] ∧
    augment_samples envW 0 [0, 1] =
      Except.ok (augBlocks envW 0 [0, 1] ++
                   ([0, 1] : List Sample).map envW.reencode,
                 0 + 4 * ([0, 1] : List Sample).length) ∧
    (augBlocks envW 0 [0, 1] ++
      ([0, 1] : List Sample).map envW.reencode).length =
      5 * ([0, 1] : List Sample).length :=
  ⟨by decide, (c7_order_amended envW 0 [0, 1] (by decide)).1,
   (c7_order_amended envW 0 [0, 1] (by decide)).2⟩

/-! ### Determinism and the per-call seed (claim C2) -/

theorem get_samples_snd (env : Env) (c : List ConceptGroup)
    (a : Bool × List Nat) (tr : Transformation) (n : List Nat) (st : GenState) :
    (get_samples env c a tr n st).2.rnd = (st.rnd.randint 0 (10 ^ 9)).2 ∧
    (get_samples env c a tr n st).2.task_pool = st.task_pool := by
  simp only [get_samples]
  split <;> first | exact ⟨rfl, rfl⟩ | (split <;> exact ⟨rfl, rfl⟩)

/-- `envW` with a perturbation pipeline that reports the ambient global rng
state it consumed (each perturbed variant equals the global counter at the
time of the call). -/
def envD : Env :=
  { envW with transPerturb := fun k _ => k }

/-- A two-split generator with TTA on, constructed when the ambient global
torch rng state was 0. -/
def stDA : GenState :=
  { task_pool := [], rnd := ⟨fun _ => 0, 0⟩, torch_rng := 0,
    n_samples_per_class := [1, 1], split_names := ["a", "b"],
    flatten := false, tta := true, n_initial_classes := 1, use_cat_id := true,
    contains_loaded_tasks := false }

/-- The same generator constructed when the ambient state was 100. -/
def stDB : GenState := { stDA with torch_rng := 100 }

/-- Claim C2, as stated, is false twice over.  (1) The per-call seed is
drawn by `self.rnd.randint(0, int(1e9))`, whose range is the *inclusive*
`[0, 1e9]`, so a state whose random stream next yields `10 ^ 9` derives the
seed `10 ^ 9 ∉ [0, 1e9)`; with a mixture sampler that echoes the numpy rng
it is handed, `get_samples` at `stBad` emits that seed as its sample value.
(2) Bit-identical tensors are not guaranteed either: the TTA perturbations
draw unseeded process-global randomness, so two generators constructed with
the same seed, pools and strategy — but at different ambient global rng
states — produce different validation tensors under the very same
`get_samples` call. -/
theorem c2_counterexample :
    (get_samples envLeak [[5]] (true, []) 0 [1] stBad).1 =
      Except.ok [([10 ^ 9], [[0]])] ∧
    ¬ (∀ st : GenState, (st.rnd.randint 0 (10 ^ 9)).1 < 10 ^ 9) ∧
    TaskGenerator.mkState envD [1, 1] ["a", "b"] 0 false 1 true true 0 =
      Except.ok stDA ∧
    TaskGenerator.mkState envD [1, 1] ["a", "b"] 0 false 1 true true 100 =
      Except.ok stDB ∧
    (drive envD [DriveOp.getSamples [[0]] (true, []) 0 [1, 1]] stDA).1 =
      [Except.ok [([0], [[0]]),
                  ([0, 1, 2, 3, 100], [[0], [0], [0], [0], [0]])]] ∧
    (drive envD [DriveOp.getSamples [[0]] (true, []) 0 [1, 1]] stDB).1 =
      [Except.ok [([0], [[0]]),
                  ([100, 101, 102, 103, 100], [[0], [0], [0], [0], [0]])]] ∧
    ([([0], [[0]]), ([0, 1, 2, 3, 100], [[0], [0], [0], [0], [0]])] :
        List (List Sample × List (List Nat))) ≠
      [([0], [[0]]), ([100, 101, 102, 103, 100], [[0], [0], [0], [0], [0]])] := by
  refine ⟨rfl, ?_, rfl, rfl, rfl, rfl, by decide⟩
  intro h
  have hb := h stBad
  have heq : (stBad.rnd.randint 0 (10 ^ 9)).1 = 10 ^ 9 := by
    show 0 + 10 ^ 9 % (10 ^ 9 + 1 - 0) = 10 ^ 9
    rw [Nat.mod_eq_of_lt (by norm_num)]
    omega
  omega

/-- Claim C2 (amended): two generators constructed with the same seed, pools
and strategy — and at an identical ambient process-global augmentation rng
state, without which the TTA split is not reproducible — driven through the
same sequence of `add_task`/`get_samples` calls, produce identical per-call
sample/label tensors; each `get_samples` call derives exactly one fresh seed
from the generator's own random source (one draw: the cursor advances by
exactly 1 and the stream is untouched) via a bounded integer draw in the
inclusive range `[0, 1e9]`. -/
theorem c2_determinism_amended :
    (∀ (env : Env) (spc : List Nat) (sn : List String) (seed : Nat)
       (flatten : Bool) (nic : Nat) (uc tta : Bool) (g : Nat)
       (ops : List DriveOp) (st1 st2 : GenState),
       TaskGenerator.mkState env spc sn seed flatten nic uc tta g =
         Except.ok st1 →
       TaskGenerator.mkState env spc sn seed flatten nic uc tta g =
         Except.ok st2 →
       (drive env ops st1).1 = (drive env ops st2).1) ∧
    (∀ (env : Env) (c : List ConceptGroup) (a : Bool × List Nat)
       (tr : Transformation) (n : List Nat) (st : GenState),
       (get_samples env c a tr n st).2.rnd.pos = st.rnd.pos + 1 ∧
       (get_samples env c a tr n st).2.rnd.stream = st.rnd.stream) ∧
    (∀ r : PyRandom, (r.randint 0 (10 ^ 9)).1 ≤ 10 ^ 9) := by
  refine ⟨?_, ?_, ?_⟩
  · intro env spc sn seed flatten nic uc tta g ops st1 st2 h1 h2
    rw [h1] at h2
    cases h2
    rfl
  · intro env c a tr n st
    rw [(get_samples_snd env c a tr n st).1]
    exact ⟨rfl, rfl⟩
  · intro r
    show 0 + r.stream r.pos % (10 ^ 9 + 1 - 0) ≤ 10 ^ 9
    have : r.stream r.pos % (10 ^ 9 + 1) < 10 ^ 9 + 1 :=
      Nat.mod_lt _ (by norm_num)
    omega

/-- Witness for `c2_determinism_amended`: a concrete generator construction
and call sequence. -/
theorem c2_determinism_amended_witness :
    (drive envW [DriveOp.addTask none none] stW).1 =
      (drive envW [DriveOp.addTask none none] stW).1 ∧
    (get_samples envW [[0]] (true, []) 0 [1] stW).2.rnd.pos = stW.rnd.pos + 1 ∧
    (stW.rnd.randint 0 (10 ^ 9)).1 ≤ 10 ^ 9 :=
  ⟨c2_determinism_amended.1 envW [10, 5, 5] ["train", "val", "test"] 0 false 3
      true true 0 [DriveOp.addTask none none] stW stW rfl rfl,
   (c2_determinism_amended.2.1 envW [[0]] (true, []) 0 [1] stW).1,
   c2_determinism_amended.2.2 stW.rnd⟩

/-! ### The v1 sampling contract (claim C8) -/

theorem exceptBind_ok {ε α β : Type} (a : α) (f : α → Except ε β) :
    (Except.ok a >>= f) = f a := rfl

theorem exceptBind_err {ε α β : Type} (e : ε) (f : α → Except ε β) :
    ((Except.error e : Except ε α) >>= f) = Except.error e := rfl

/-- The environment's mixture sampler never fails. -/
def MixtureOk (env : Env) : Prop :=
  ∀ g a n sid r, ∃ xs r',
    env.mixtureGetSamples g a n sid r = Except.ok (xs, r')

/-- Concept contract: the mixture returns exactly the requested number of
samples. -/
def MixtureLen (env : Env) : Prop :=
  ∀ g a n sid r xs r',
    env.mixtureGetSamples g a n sid r = Except.ok (xs, r') → xs.length = n

theorem splitLoop_ok_exists (env : Env) (hm : MixtureOk env)
    (hml : MixtureLen env) (g : ConceptGroup) (attrs : List Nat)
    (aug : List Nat) (i : Nat) :
    ∀ (counts : List Nat) (s_id : Nat) (r : NpRng) (gl : Nat),
      (∀ t, t < counts.length → (s_id + t) ∈ aug → counts.getD t 0 ≠ 0) →
      ∃ cs cl r' gl', splitLoop env g attrs aug i s_id counts r gl =
        Except.ok (cs, cl, r', gl') ∧ cs.length = counts.length := by
  intro counts
  induction counts with
  | nil => exact fun s_id r gl _ => ⟨[], [], r, gl, rfl, rfl⟩
  | cons n rest ih =>
    intro s_id r gl hflag
    obtain ⟨xs, r', hx⟩ := hm g attrs n s_id r
    have hxlen : xs.length = n := hml g attrs n s_id r xs r' hx
    obtain ⟨ss, g2, hss⟩ : ∃ ss g2,
        (if s_id ∈ aug then augment_samples env gl xs
         else Except.ok (xs, gl)) = Except.ok (ss, g2) := by
      by_cases hsa : s_id ∈ aug
      · rw [if_pos hsa]
        have hn0 : n ≠ 0 := by
          have := hflag 0 (by simp) (by simpa using hsa)
          simpa using this
        have hxne : xs ≠ [] := by
          intro hnil
          rw [hnil] at hxlen
          exact hn0 hxlen.symm
        exact ⟨_, _, augment_samples_eq env gl xs hxne⟩
      · rw [if_neg hsa]
        exact ⟨xs, gl, rfl⟩
    obtain ⟨cs, cl, r'', gl'', hrec, hlen⟩ := ih (s_id + 1) r' g2
      (by
        intro t ht hmem
        have := hflag (t + 1) (by simpa using Nat.succ_lt_succ ht)
          (by rw [show s_id + (t + 1) = s_id + 1 + t by omega]; exact hmem)
        simpa using this)
    refine ⟨ss :: cs, List.replicate ss.length [i] :: cl, r'', gl'', ?_,
            by simp [hlen]⟩
    simp only [splitLoop, hx, exceptBind_ok]
    by_cases hsa : s_id ∈ aug
    · rw [if_pos hsa] at hss
      simp only [if_pos hsa, hss, exceptBind_ok, hrec]
    · rw [if_neg hsa] at hss
      cases hss
      simp only [if_neg hsa, hrec, exceptBind_ok]

theorem catLoop_ok_exists (env : Env) (hm : MixtureOk env)
    (hml : MixtureLen env) (attrs : List Nat) (nspc : List Nat)
    (aug : List Nat)
    (hflag : ∀ t, t < nspc.length → t ∈ aug → nspc.getD t 0 ≠ 0) :
    ∀ (cats : List ConceptGroup) (i : Nat) (r : NpRng) (gl : Nat),
      ∃ sL lL r' gl', catLoop env attrs nspc aug i cats r gl =
        Except.ok (sL, lL, r', gl') ∧ sL.length = cats.length ∧
        ∀ c ∈ sL, List.length c = nspc.length := by
  intro cats
  induction cats with
  | nil => exact fun i r gl => ⟨[], [], r, gl, rfl, rfl, by simp⟩
  | cons cat rest ih =>
    intro i r gl
    obtain ⟨cs, cl, r', gl', hs, hlen⟩ :=
      splitLoop_ok_exists env hm hml cat attrs aug i nspc 0 r gl
        (by intro t ht hmem; exact hflag t ht (by simpa using hmem))
    obtain ⟨sL, lL, r'', gl'', hrec, hl1, hl2⟩ := ih (i + 1) r' gl'
    refine ⟨cs :: sL, cl :: lL, r'', gl'', ?_, by simp [hl1], ?_⟩
    · simp only [catLoop, hs, exceptBind_ok, hrec]
    · intro c hc
      rcases List.mem_cons.mp hc with h | h
      · rw [h]; exact hlen
      · exact hl2 c h

/-- Claim C8: `_generate_samples_from_descr` fails immediately with the
assertion error whenever `use_category_id` is false or the attribute list is
non-empty — for every environment and every other argument; and under the
precondition the assert branch is not taken and synthesis proceeds: with a
mixture sampler that never fails and returns the requested counts, at least
one category and one split, and a nonzero requested count on every
TTA-flagged split (a flagged split of count 0 makes the source raise in
`torch.stack([])`), the call returns successfully. -/
theorem c8_contract_assert (env : Env) (cats : List ConceptGroup)
    (u : Bool) (attrs : List Nat) (nspc : List Nat) (aug : List Nat)
    (rnd : NpRng) (gl : Nat) :
    (¬ (u = true ∧ attrs = []) →
      _generate_samples_from_descr env cats (u, attrs) nspc aug rnd gl =
        Except.error Err.assertionError) ∧
    ((u = true ∧ attrs = []) → MixtureOk env → MixtureLen env →
      (∀ t, t < nspc.length → t ∈ aug → nspc.getD t 0 ≠ 0) →
      cats ≠ [] → nspc ≠ [] →
      ∃ v, _generate_samples_from_descr env cats (u, attrs) nspc aug rnd gl =
        Except.ok v) := by
  constructor
  · intro hpre
    simp only [_generate_samples_from_descr, hpre, if_true, not_false_iff]
    rfl
  · intro hpre hm hml hflag hcats hnspc
    obtain ⟨hu, ha⟩ := hpre
    subst hu
    subst ha
    obtain ⟨sL, lL, r', gl', hcat, hl1, hl2⟩ :=
      catLoop_ok_exists env hm hml [] nspc aug hflag cats 0 rnd gl
    cases sL with
    | nil =>
      exact absurd (List.length_eq_zero.mp hl1.symm) hcats
    | cons s0 srest =>
      cases s0 with
      | nil =>
        have h0 := hl2 [] (by simp)
        simp only [List.length_nil] at h0
        exact absurd (List.length_eq_zero.mp h0.symm) hnspc
      | cons x s0rest =>
        refine ⟨((List.range nspc.length).map
            (fun s =>
              ((((x :: s0rest) :: srest).map (fun c => c.getD s [])).flatten)),
          (List.range nspc.length).map
            (fun s => ((lL.map (fun c => c.getD s [])).flatten)),
          gl'), ?_⟩
        simp only [_generate_samples_from_descr, hcat, exceptBind_ok]
        rw [if_neg (by simp)]
        rfl

/-- Witness for `c8_contract_assert`: the contract error fires on
`use_cat_id = false`, and the benign instantiation synthesizes successfully. -/
theorem c8_contract_assert_witness :
    _generate_samples_from_descr envW [[0]] (false, []) [1] [] 0 0 =
      Except.error Err.assertionError ∧
    (∃ v, _generate_samples_from_descr envW [[0]] (true, []) [1] [] 0 0 =
      Except.ok v) :=
  ⟨(c8_contract_assert envW [[0]] false [] [1] [] 0 0).1 (by simp),
   (c8_contract_assert envW [[0]] true [] [1] [] 0 0).2 ⟨rfl, rfl⟩
     (fun g a n sid r => ⟨(List.range n).map
         (fun j => (g.headD 0) * 1000 + sid * 100 + j), r + 1, rfl⟩)
     (fun g a n sid r xs r' h => by cases h; simp)
     (fun t _ hmem => absurd hmem (by simp))
     (by simp) (by simp)⟩

/-! ### The iterator protocol (claim C5) -/

/-- A generator state holding one materialized task (for witnesses). -/
def stP : GenState := { stW with task_pool := [dTask] }

/-- Claim C5: `__iter__` returns a fresh cursor at 0 over the shared pool; a
`next()` with cursor `n < len(task_pool)` yields `task_pool[n]` without
touching the state; a `next()` with `n == len(task_pool)` calls `add_task()`,
yielding its task on success and signalling end-of-sequence (not an error)
when it raises the `IndexError` of concept exhaustion; every successful yield
advances the cursor by exactly 1. -/
theorem c5_iterator_protocol :
    (∀ st : GenState, (TaskGenerator.iter st).n = 0) ∧
    (∀ (env : Env) (it : TaskGenIter) (st : GenState)
       (h : it.n < st.task_pool.length),
       iterNext env it st =
         (IterResult.yield (st.task_pool.get ⟨it.n, h⟩) ⟨it.n + 1⟩, st)) ∧
    (∀ (env : Env) (it : TaskGenIter) (st : GenState) (t : Task)
       (st' : GenState), it.n = st.task_pool.length →
       add_task env none none st = (Except.ok t, st') →
       iterNext env it st = (IterResult.yield t ⟨it.n + 1⟩, st')) ∧
    (∀ (env : Env) (it : TaskGenIter) (st st' : GenState),
       it.n = st.task_pool.length →
       add_task env none none st = (Except.error Err.indexError, st') →
       iterNext env it st = (IterResult.stop, st')) := by
  refine ⟨fun _ => rfl, ?_, ?_, ?_⟩
  · intro env it st h
    unfold iterNext
    rw [dif_pos h]
  · intro env it st t st' hn hadd
    unfold iterNext
    rw [dif_neg (by omega), if_pos hn, hadd]
  · intro env it st st' hn hadd
    unfold iterNext
    rw [dif_neg (by omega), if_pos hn, hadd]

/-- Witness for `c5_iterator_protocol`: reading the first materialized task
of a one-task pool. -/
theorem c5_iterator_protocol_witness :
    (⟨0⟩ : TaskGenIter).n < stP.task_pool.length ∧
    iterNext envW ⟨0⟩ stP = (IterResult.yield dTask ⟨1⟩, stP) :=
  ⟨by decide, c5_iterator_protocol.2.1 envW ⟨0⟩ stP (by decide)⟩

/-! ### Pool-atomicity of `add_task` and `load_task` (claims C1, C4) -/

theorem _create_new_task_snd_pool (env : Env) (k : Nat) (st : GenState) :
    ((_create_new_task env k) st).2.task_pool = st.task_pool := by
  dsimp only [_create_new_task, GenM.bind_apply, GenM.get_apply,
              GenM.lift_apply, GenM.purePlain_apply, GenM.set_apply,
              GenM.throw_apply]
  cases hc : env.getCompatibleConcepts st.n_initial_classes with
  | error e => rfl
  | ok cs =>
    dsimp only
    by_cases hk : k > env.nAvailAttrs
    · rw [GenM.raiseIf_pos hk]
    · rw [GenM.raiseIf_neg hk]
      dsimp only
      cases ht : env.getTransformation with
      | error e => rfl
      | ok tr => rfl

theorem _create_task_snd_pool (env : Env) (spec : TaskSpec)
    (name save_path : Option String) (st : GenState) :
    ((_create_task env spec name save_path) st).2.task_pool = st.task_pool := by
  simp only [_create_task, GenM.bind_apply, GenM.get_apply, GenM.pure_apply]
  have hs := (get_samples_snd env spec.src_concepts spec.attributes
    spec.transformation spec.n_samples_per_class st).2
  cases h : get_samples env spec.src_concepts spec.attributes
      spec.transformation spec.n_samples_per_class st with
  | mk r s' =>
    rw [h] at hs
    cases r <;> exact hs

theorem quad_snd_pool (env : Env) (st₀ st : GenState) :
    ((if st₀.task_pool.length = 0 then _create_new_task env 0
      else
        GenM.pure
          ((st₀.task_pool.getLastD dTask).src_concepts,
           (st₀.task_pool.getLastD dTask).attributes,
           (st₀.task_pool.getLastD dTask).transformation,
           (st₀.task_pool.getLastD dTask).n_samples_per_class)) st).2.task_pool
      = st.task_pool := by
  split
  · exact _create_new_task_snd_pool env 0 st
  · rfl

/-- Full characterization of one `add_task` call: on an exception the pool is
untouched; on success the pool is extended by exactly the returned task,
whose id is the pre-call pool length. -/
theorem add_task_main (env : Env) (name save_path : Option String)
    (st : GenState) :
    match add_task env name save_path st with
    | (Except.error _, st') => st'.task_pool = st.task_pool
    | (Except.ok t, st') =>
        st'.task_pool = st.task_pool ++ [t] ∧
        t.id = st.task_pool.length := by
  dsimp only [add_task, GenM.bind_apply, GenM.get_apply, GenM.lift_apply,
              GenM.purePlain_apply, GenM.modify_apply, GenM.throw_apply]
  by_cases h0 : st.task_pool.length = 0
  · rw [if_pos h0]
    try dsimp only [GenM.bind_apply, GenM.lift_apply, GenM.purePlain_apply,
                    GenM.modify_apply]
    cases hq : _create_new_task env 0 st with
    | mk r1 s1 =>
      have hp1 : s1.task_pool = st.task_pool := by
        have hx := _create_new_task_snd_pool env 0 st
        rw [hq] at hx
        exact hx
      cases r1 with
      | error e1 => exact hp1
      | ok quad =>
        try dsimp only [GenM.bind_apply, GenM.lift_apply, GenM.purePlain_apply,
                        GenM.modify_apply]
        cases hs : env.strategyNewTask
            { src_concepts := quad.1, attributes := quad.2.1,
              transformation := quad.2.2.1,
              n_samples_per_class := quad.2.2.2 } st.task_pool with
        | error e2 => exact hp1
        | ok spec =>
          try dsimp only [GenM.bind_apply, GenM.lift_apply,
                          GenM.purePlain_apply, GenM.modify_apply]
          by_cases h1 : spec.n_samples_per_class.length ≠ st.split_names.length
          · rw [GenM.raiseIf_pos h1]
            exact hp1
          · rw [GenM.raiseIf_neg h1]
            try dsimp only [GenM.bind_apply, GenM.lift_apply,
                            GenM.purePlain_apply, GenM.modify_apply]
            cases hct : _create_task env spec name save_path s1 with
            | mk r3 s3 =>
              have hp3 : s3.task_pool = s1.task_pool := by
                have hx := _create_task_snd_pool env spec name save_path s1
                rw [hct] at hx
                exact hx
              cases r3 with
              | error e3 => exact hp3.trans hp1
              | ok newt =>
                try dsimp only [GenM.bind_apply, GenM.purePlain_apply,
                                GenM.modify_apply]
                exact ⟨by rw [hp3, hp1], rfl⟩
  · rw [if_neg h0]
    try dsimp only [GenM.bind_apply, GenM.lift_apply, GenM.purePlain_apply,
                    GenM.modify_apply]
    cases hs : env.strategyNewTask
        { src_concepts := (st.task_pool.getLastD dTask).src_concepts,
          attributes := (st.task_pool.getLastD dTask).attributes,
          transformation := (st.task_pool.getLastD dTask).transformation,
          n_samples_per_class :=
            (st.task_pool.getLastD dTask).n_samples_per_class }
        st.task_pool with
    | error e2 => rfl
    | ok spec =>
      try dsimp only [GenM.bind_apply, GenM.lift_apply, GenM.purePlain_apply,
                      GenM.modify_apply]
      by_cases h1 : spec.n_samples_per_class.length ≠ st.split_names.length
      · rw [GenM.raiseIf_pos h1]
      · rw [GenM.raiseIf_neg h1]
        try dsimp only [GenM.bind_apply, GenM.lift_apply, GenM.purePlain_apply,
                        GenM.modify_apply]
        cases hct : _create_task env spec name save_path st with
        | mk r3 s3 =>
          have hp3 : s3.task_pool = st.task_pool := by
            have hx := _create_task_snd_pool env spec name save_path st
            rw [hct] at hx
            exact hx
          cases r3 with
          | error e3 => exact hp3
          | ok newt =>
            try dsimp only [GenM.bind_apply, GenM.purePlain_apply,
                            GenM.modify_apply]
            exact ⟨by rw [hp3], rfl⟩

/-- Full characterization of one `load_task` call: on an exception the whole
state is untouched; on success the pool is extended by exactly the returned
task, which carries `id = len(task_pool)`, the generator's own `split_names`,
the three hard-coded `.pth` save paths, and empty metadata when the `.meta`
sidecar is absent. -/
theorem load_task_main (env : Env) (tn lp : String) (st : GenState) :
    match load_task env tn lp st with
    | (Except.error _, st') => st' = st
    | (Except.ok t, st') =>
        st' = { st with task_pool := st.task_pool ++ [t],
                        contains_loaded_tasks := true } ∧
        t.id = st.task_pool.length ∧
        t.split_names = st.split_names ∧
        t.name = some tn ∧
        t.save_path = [pathJoin lp (tn ++ "_" ++ "train" ++ ".pth"),
                       pathJoin lp (tn ++ "_" ++ "val" ++ ".pth"),
                       pathJoin lp (tn ++ "_" ++ "test" ++ ".pth")] ∧
        (env.fs (pathJoin lp (tn ++ ".meta")) = none → t.meta = 0) := by
  dsimp only [load_task, List.foldlM, GenM.bind_apply, GenM.get_apply,
              GenM.set_apply, GenM.purePlain_apply, GenM.throw_apply]
  cases c1 : env.fs (pathJoin lp (tn ++ "_" ++ "train" ++ ".pth")) with
  | none => rfl
  | some f1 =>
    cases f1 with
    | meta m1 => rfl
    | data x1 y1 =>
      try dsimp only [GenM.bind_apply, GenM.purePlain_apply, GenM.throw_apply]
      cases c2 : env.fs (pathJoin lp (tn ++ "_" ++ "val" ++ ".pth")) with
      | none => rfl
      | some f2 =>
        cases f2 with
        | meta m2 => rfl
        | data x2 y2 =>
          try dsimp only [GenM.bind_apply, GenM.purePlain_apply,
                          GenM.throw_apply]
          cases c3 : env.fs (pathJoin lp (tn ++ "_" ++ "test" ++ ".pth")) with
          | none => rfl
          | some f3 =>
            cases f3 with
            | meta m3 => rfl
            | data x3 y3 =>
              try dsimp only [GenM.bind_apply, GenM.purePlain_apply,
                              GenM.throw_apply, GenM.get_apply,
                              GenM.set_apply]
              cases cm : env.fs (pathJoin lp (tn ++ ".meta")) with
              | none =>
                refine ⟨rfl, rfl, rfl, rfl, by simp, fun _ => rfl⟩
              | some fm =>
                cases fm with
                | data xm ym => rfl
                | meta m =>
                  exact ⟨rfl, rfl, rfl, rfl, by simp,
                         fun hmn => Option.noConfusion hmn⟩

/-- Claim C4: whenever an `add_task` call raises — strategy error,
spec-validation failure, synthesis error, or concept-pool exhaustion — the
task pool is left exactly as it was; no partially materialized task is
appended. -/
theorem c4_failure_atomicity (env : Env) (name save_path : Option String)
    (st : GenState) (e : Err) (st' : GenState)
    (h : add_task env name save_path st = (Except.error e, st')) :
    st'.task_pool = st.task_pool := by
  have hm := add_task_main env name save_path st
  rw [h] at hm
  exact hm

/-- `envW` with an exhausted concept pool: `get_compatible_concepts` raises
`IndexError`. -/
def envFail : Env :=
  { envW with getCompatibleConcepts := fun _ => Except.error Err.indexError }

/-- Witness for `c4_failure_atomicity`: concept exhaustion on the first
`add_task` leaves the empty pool empty. -/
theorem c4_failure_atomicity_witness :
    add_task envFail none none stW =
      (Except.error Err.indexError, (add_task envFail none none stW).2) ∧
    (add_task envFail none none stW).2.task_pool = stW.task_pool :=
  ⟨rfl, c4_failure_atomicity envFail none none stW Err.indexError _ rfl⟩

/-! ### Append-only pool with positional ids (claim C1) -/

/-- All tasks in the pool carry their own index as id. -/
def IdsOk (pool : List Task) : Prop :=
  ∀ i (h : i < pool.length), (pool.get ⟨i, h⟩).id = i

theorem IdsOk_append {pool : List Task} {t : Task} (h : IdsOk pool)
    (ht : t.id = pool.length) : IdsOk (pool ++ [t]) := by
  intro i hi
  rcases Nat.lt_or_ge i pool.length with hlt | hge
  · have hg : (pool ++ [t]).get ⟨i, hi⟩ = pool.get ⟨i, hlt⟩ := by
      simp [List.get_eq_getElem, List.getElem_append_left, hlt]
    rw [hg]
    exact h i hlt
  · have hlen : i = pool.length := by
      have := hi
      simp only [List.length_append, List.length_singleton] at this
      omega
    subst hlen
    have hg : (pool ++ [t]).get ⟨pool.length, hi⟩ = t := by
      simp [List.get_eq_getElem]
    rw [hg]
    exact ht

theorem runGrow_ok_shape (env : Env) (op : GrowOp) (st : GenState) (t : Task)
    (st' : GenState) (h : runGrow env op st = (Except.ok t, st')) :
    st'.task_pool = st.task_pool ++ [t] ∧ t.id = st.task_pool.length := by
  cases op with
  | add n p =>
    have hm := add_task_main env n p st
    rw [show runGrow env (GrowOp.add n p) st = add_task env n p st from rfl] at h
    rw [h] at hm
    exact hm
  | load tn lp =>
    have hm := load_task_main env tn lp st
    rw [show runGrow env (GrowOp.load tn lp) st = load_task env tn lp st
          from rfl] at h
    rw [h] at hm
    exact ⟨by rw [hm.1], hm.2.1⟩

theorem runGrow_err_pool (env : Env) (op : GrowOp) (st : GenState) (e : Err)
    (st' : GenState) (h : runGrow env op st = (Except.error e, st')) :
    st'.task_pool = st.task_pool := by
  cases op with
  | add n p =>
    have hm := add_task_main env n p st
    rw [show runGrow env (GrowOp.add n p) st = add_task env n p st from rfl] at h
    rw [h] at hm
    exact hm
  | load tn lp =>
    have hm := load_task_main env tn lp st
    rw [show runGrow env (GrowOp.load tn lp) st = load_task env tn lp st
          from rfl] at h
    rw [h] at hm
    rw [hm]

/-- Claim C1: every successful `add_task`/`load_task` call appends exactly
one task (the pool grows by 1 and keeps its prefix — no reordering or
removal) with `id` equal to its position; consequently, over any interleaved
sequence of such calls (failures included, which leave the pool unchanged),
`task_pool[i].id == i` holds for every index. -/
theorem c1_append_only_ids :
    (∀ (env : Env) (op : GrowOp) (st : GenState) (t : Task) (st' : GenState),
       runGrow env op st = (Except.ok t, st') →
       st'.task_pool = st.task_pool ++ [t] ∧
       t.id = st.task_pool.length ∧
       st'.task_pool.length = st.task_pool.length + 1) ∧
    (∀ (env : Env) (ops : List GrowOp) (st : GenState),
       IdsOk st.task_pool → IdsOk (runGrowSeq env ops st).task_pool) := by
  constructor
  · intro env op st t st' h
    obtain ⟨h1, h2⟩ := runGrow_ok_shape env op st t st' h
    exact ⟨h1, h2, by rw [h1]; simp⟩
  · intro env ops
    induction ops with
    | nil => intro st h; exact h
    | cons op rest ih =>
      intro st h
      show IdsOk (runGrowSeq env rest (runGrow env op st).2).task_pool
      apply ih
      cases hr : runGrow env op st with
      | mk r s' =>
        cases r with
        | ok t =>
          obtain ⟨h1, h2⟩ := runGrow_ok_shape env op st t s' hr
          show IdsOk s'.task_pool
          rw [h1]
          exact IdsOk_append h h2
        | error e =>
          have h1 := runGrow_err_pool env op st e s' hr
          show IdsOk s'.task_pool
          rw [h1]
          exact h

/-- The filesystem serving the three split files of task `t0` under `/d`. -/
def envL : Env :=
  { envW with fs := fun p =>
      if p = "/d/t0_train.pth" then some (FileVal.data [1] [[0]])
      else if p = "/d/t0_val.pth" then some (FileVal.data [2] [[0]])
      else if p = "/d/t0_test.pth" then some (FileVal.data [3] [[0]])
      else none }

/-- The task `load_task "t0" "/d"` constructs from `envL` on an empty pool. -/
def wTask : Task :=
  { id := 0, name := some "t0",
    samples := [([1], [[0]]), ([2], [[0]]), ([3], [[0]])],
    split_names := ["train", "val", "test"], src_concepts := [],
    attributes := (true, []), transformation := 0, n_samples_per_class := [],
    creator := "",
    save_path := ["/d/t0_train.pth", "/d/t0_val.pth", "/d/t0_test.pth"],
    meta := 0 }

/-- Witness for `c1_append_only_ids`: one successful `load_task` on an empty
pool. -/
theorem c1_append_only_ids_witness :
    (runGrow envL (GrowOp.load "t0" "/d") stW).2.task_pool =
      stW.task_pool ++ [wTask] ∧
    wTask.id = stW.task_pool.length ∧
    (runGrow envL (GrowOp.load "t0" "/d") stW).2.task_pool.length =
      stW.task_pool.length + 1 :=
  c1_append_only_ids.1 envL (GrowOp.load "t0" "/d") stW wTask _ rfl

/-! ### The hard-coded split files of `load_task` (claim C9) -/

/-- A successful `load_task` implies all three hard-coded `.pth` files are
present with data contents. -/
theorem load_task_ok_files (env : Env) (tn lp : String) (st : GenState) :
    match load_task env tn lp st with
    | (Except.ok _, _) =>
        (∃ x y, env.fs (pathJoin lp (tn ++ "_" ++ "train" ++ ".pth")) =
          some (FileVal.data x y)) ∧
        (∃ x y, env.fs (pathJoin lp (tn ++ "_" ++ "val" ++ ".pth")) =
          some (FileVal.data x y)) ∧
        (∃ x y, env.fs (pathJoin lp (tn ++ "_" ++ "test" ++ ".pth")) =
          some (FileVal.data x y))
    | (Except.error _, _) => True := by
  dsimp only [load_task, List.foldlM, GenM.bind_apply, GenM.get_apply,
              GenM.set_apply, GenM.purePlain_apply, GenM.throw_apply]
  cases c1 : env.fs (pathJoin lp (tn ++ "_" ++ "train" ++ ".pth")) with
  | none => trivial
  | some f1 =>
    cases f1 with
    | meta m1 => trivial
    | data x1 y1 =>
      try dsimp only [GenM.bind_apply, GenM.purePlain_apply, GenM.throw_apply]
      cases c2 : env.fs (pathJoin lp (tn ++ "_" ++ "val" ++ ".pth")) with
      | none => trivial
      | some f2 =>
        cases f2 with
        | meta m2 => trivial
        | data x2 y2 =>
          try dsimp only [GenM.bind_apply, GenM.purePlain_apply,
                          GenM.throw_apply]
          cases c3 : env.fs (pathJoin lp (tn ++ "_" ++ "test" ++ ".pth")) with
          | none => trivial
          | some f3 =>
            cases f3 with
            | meta m3 => trivial
            | data x3 y3 =>
              try dsimp only [GenM.bind_apply, GenM.purePlain_apply,
                              GenM.throw_apply, GenM.get_apply,
                              GenM.set_apply]
              cases cm : env.fs (pathJoin lp (tn ++ ".meta")) with
              | none =>
                exact ⟨⟨x1, y1, rfl⟩, ⟨x2, y2, rfl⟩, ⟨x3, y3, rfl⟩⟩
              | some fm =>
                cases fm with
                | data xm ym => trivial
                | meta m =>
                  exact ⟨⟨x1, y1, rfl⟩, ⟨x2, y2, rfl⟩, ⟨x3, y3, rfl⟩⟩

/-- Claim C9: `load_task` reads exactly the three hard-coded files
`{task}_train.pth`, `{task}_val.pth`, `{task}_test.pth` under `load_path`
(its behaviour depends on the filesystem only at those three paths and the
`{task}.meta` sidecar, independently of the generator's configured
`split_names`); it fails whenever any of the three is absent; on success the
constructed task carries the generator's own `split_names`, records exactly
those three save paths, and defaults to empty metadata when the sidecar is
absent. -/
theorem c9_load_task_files :
    (∀ (env env' : Env) (tn lp : String) (st : GenState),
       env.fs (pathJoin lp (tn ++ "_" ++ "train" ++ ".pth")) =
         env'.fs (pathJoin lp (tn ++ "_" ++ "train" ++ ".pth")) →
       env.fs (pathJoin lp (tn ++ "_" ++ "val" ++ ".pth")) =
         env'.fs (pathJoin lp (tn ++ "_" ++ "val" ++ ".pth")) →
       env.fs (pathJoin lp (tn ++ "_" ++ "test" ++ ".pth")) =
         env'.fs (pathJoin lp (tn ++ "_" ++ "test" ++ ".pth")) →
       env.fs (pathJoin lp (tn ++ ".meta")) =
         env'.fs (pathJoin lp (tn ++ ".meta")) →
       load_task env tn lp st = load_task env' tn lp st) ∧
    (∀ (env : Env) (tn lp : String) (st : GenState) (t : Task)
       (st' : GenState),
       load_task env tn lp st = (Except.ok t, st') →
       t.split_names = st.split_names ∧
       t.save_path = [pathJoin lp (tn ++ "_" ++ "train" ++ ".pth"),
                      pathJoin lp (tn ++ "_" ++ "val" ++ ".pth"),
                      pathJoin lp (tn ++ "_" ++ "test" ++ ".pth")] ∧
       (env.fs (pathJoin lp (tn ++ ".meta")) = none → t.meta = 0)) ∧
    (∀ (env : Env) (tn lp : String) (st : GenState),
       (env.fs (pathJoin lp (tn ++ "_" ++ "train" ++ ".pth")) = none ∨
        env.fs (pathJoin lp (tn ++ "_" ++ "val" ++ ".pth")) = none ∨
        env.fs (pathJoin lp (tn ++ "_" ++ "test" ++ ".pth")) = none) →
       ∀ (t : Task) (st' : GenState),
         load_task env tn lp st ≠ (Except.ok t, st')) := by
  refine ⟨?_, ?_, ?_⟩
  · intro env env' tn lp st h1 h2 h3 hm
    dsimp only [load_task, List.foldlM, GenM.bind_apply, GenM.get_apply,
                GenM.set_apply, GenM.purePlain_apply, GenM.throw_apply]
    rw [h1, h2, h3, hm]
  · intro env tn lp st t st' h
    have hm := load_task_main env tn lp st
    rw [h] at hm
    exact ⟨hm.2.2.1, hm.2.2.2.2.1, hm.2.2.2.2.2⟩
  · intro env tn lp st hmiss t st' hok
    have hf := load_task_ok_files env tn lp st
    rw [hok] at hf
    rcases hmiss with hn | hn | hn
    · obtain ⟨x, y, hc⟩ := hf.1
      rw [hn] at hc
      exact Option.noConfusion hc
    · obtain ⟨x, y, hc⟩ := hf.2.1
      rw [hn] at hc
      exact Option.noConfusion hc
    · obtain ⟨x, y, hc⟩ := hf.2.2
      rw [hn] at hc
      exact Option.noConfusion hc

/-- Witness for `c9_load_task_files`: the concrete filesystem `envL` with all
three files, and `envW` (an empty filesystem) for the failure part. -/
theorem c9_load_task_files_witness :
    wTask.split_names = stW.split_names ∧
    wTask.save_path = [pathJoin "/d" ("t0" ++ "_" ++ "train" ++ ".pth"),
                       pathJoin "/d" ("t0" ++ "_" ++ "val" ++ ".pth"),
                       pathJoin "/d" ("t0" ++ "_" ++ "test" ++ ".pth")] ∧
    (envL.fs (pathJoin "/d" ("t0" ++ ".meta")) = none → wTask.meta = 0) ∧
    load_task envW "t0" "/d" stW ≠ (Except.ok wTask, stW) :=
  ⟨(c9_load_task_files.2.1 envL "t0" "/d" stW wTask _ rfl).1,
   (c9_load_task_files.2.1 envL "t0" "/d" stW wTask _ rfl).2.1,
   (c9_load_task_files.2.1 envL "t0" "/d" stW wTask _ rfl).2.2,
   c9_load_task_files.2.2 envW "t0" "/d" stW (Or.inl rfl) wTask stW⟩

/-! ### `get_similarities` on an empty pool (claim C10) -/

theorem getD_replicate_zero (n k : Nat) :
    (List.replicate n (0 : SimVal)).getD k 0 = 0 := by
  rcases Nat.lt_or_ge k n with h | h
  · rw [List.getD_eq_getElem _ _ (by simpa using h)]
    simp
  · rw [List.getD_eq_default _ _ (by simpa using h)]

theorem zip_replicate_filter_nil (comp : List Char) :
    ((comp.zip (List.replicate comp.length (0 : Nat))).filter
      (fun p => decide (1 < p.2))).map Prod.fst = ([] : List Char) := by
  have hnil : (comp.zip (List.replicate comp.length (0 : Nat))).filter
      (fun p => decide (1 < p.2)) = [] := by
    rw [List.filter_eq_nil_iff]
    intro p hp
    have h2 := List.of_mem_zip hp
    have h0 := List.eq_of_mem_replicate h2.2
    simp [h0]
  rw [hnil]
  rfl

/-- Claim C10: on an empty task pool, `get_similarities` succeeds for every
requested component string, delegates no similarity call (the result does not
depend on the environment's similarity or timing functions, as the right-hand
side mentions none of them), emits no timing warning, and returns for each
requested axis character an all-zero (0 × 0) matrix. -/
theorem c10_empty_similarities (env : Env) (st : GenState)
    (component : Option (List Char)) (h : st.task_pool = []) :
    get_similarities env st component =
      Except.ok
        ((component.getD ['x', 'y', 'z']).enum.map
           (fun p => (p.2, fun _ _ => (0 : SimVal))), []) := by
  have hfun : ∀ (p : Nat × Char),
      ((p.2, fun (_ _ : Nat) =>
          (List.replicate (component.getD ['x', 'y', 'z']).length
            (0 : SimVal)).getD p.1 0) :
        Char × (Nat → Nat → SimVal)) =
      (p.2, fun _ _ => (0 : SimVal)) := by
    intro p
    refine congrArg (Prod.mk p.2) ?_
    funext a b
    exact getD_replicate_zero _ _
  unfold get_similarities
  rw [h]
  dsimp only [List.length_nil, List.range_zero, List.foldlM]
  refine congrArg Except.ok ?_
  refine Prod.ext ?_ ?_
  · simp only [hfun]
  · exact zip_replicate_filter_nil _

/-- Witness for `c10_empty_similarities`: the freshly constructed generator
`stW` with the default component string. -/
theorem c10_empty_similarities_witness :
    stW.task_pool = [] ∧
    get_similarities envW stW none =
      Except.ok
        (((none : Option (List Char)).getD ['x', 'y', 'z']).enum.map
           (fun p => (p.2, fun _ _ => (0 : SimVal))), []) :=
  ⟨rfl, c10_empty_similarities envW stW none rfl⟩

/-! ### Per-split sample counts (claim C3) -/

/-- Transformation contract: applying a transformation preserves the batch
size. -/
def TransLen (env : Env) : Prop :=
  ∀ t xs ys, env.applyTrans t xs = Except.ok ys → ys.length = xs.length

theorem splitLoop_lengths (env : Env) (hm : MixtureLen env)
    (g : ConceptGroup) (attrs aug : List Nat) (i : Nat) :
    ∀ (counts : List Nat) (s_id : Nat) (r : NpRng) (gl : Nat) cs cl r' gl',
      splitLoop env g attrs aug i s_id counts r gl =
        Except.ok (cs, cl, r', gl') →
      cs.length = counts.length ∧
      ∀ t, t < counts.length →
        (cs.getD t []).length =
          (if (s_id + t) ∈ aug then 5 * counts.getD t 0
           else counts.getD t 0) := by
  intro counts
  induction counts with
  | nil =>
    intro s_id r gl cs cl r' gl' h
    cases h
    exact ⟨rfl, fun t ht => absurd ht (by simp)⟩
  | cons n rest ih =>
    intro s_id r gl cs cl r' gl' h
    rw [splitLoop] at h
    cases hmx : env.mixtureGetSamples g attrs n s_id r with
    | error e => rw [hmx] at h; exact Except.noConfusion h
    | ok p =>
      rw [hmx] at h
      dsimp only [exceptBind_ok] at h
      have hlen : p.1.length = n := hm g attrs n s_id r p.1 p.2 (by rw [hmx])
      by_cases ha : s_id ∈ aug
      · rw [if_pos ha] at h
        cases haug : augment_samples env gl p.1 with
        | error e => rw [haug] at h; exact Except.noConfusion h
        | ok q =>
          rw [haug] at h
          dsimp only [exceptBind_ok] at h
          cases hrec : splitLoop env g attrs aug i (s_id + 1) rest p.2 q.2 with
          | error e => rw [hrec] at h; exact Except.noConfusion h
          | ok d =>
            rw [hrec] at h
            dsimp only [exceptBind_ok] at h
            cases h
            have ihh := ih (s_id + 1) p.2 q.2 d.1 d.2.1 d.2.2.1 d.2.2.2
              (by rw [hrec])
            have hq : q.1.length = 5 * n := by
              have := (augment_samples_length env gl p.1 q.1 q.2
                (by rw [haug])).1
              rw [hlen] at this
              exact this
            constructor
            · simp [ihh.1]
            · intro t ht
              cases t with
              | zero =>
                simp only [Nat.add_zero, List.getD_cons_zero]
                simp [ha, hq]
              | succ t' =>
                simp only [List.getD_cons_succ]
                have ih2 := ihh.2 t'
                  (Nat.lt_of_succ_lt_succ (by simpa using ht))
                have harith : s_id + 1 + t' = s_id + (t' + 1) := by omega
                rw [harith] at ih2
                exact ih2
      · rw [if_neg ha] at h
        cases hrec : splitLoop env g attrs aug i (s_id + 1) rest p.2 gl with
        | error e => rw [hrec] at h; exact Except.noConfusion h
        | ok d =>
          rw [hrec] at h
          dsimp only [exceptBind_ok] at h
          cases h
          have ihh := ih (s_id + 1) p.2 gl d.1 d.2.1 d.2.2.1 d.2.2.2
            (by rw [hrec])
          constructor
          · simp [ihh.1]
          · intro t ht
            cases t with
            | zero =>
              simp only [Nat.add_zero, List.getD_cons_zero]
              simp [ha, hlen]
            | succ t' =>
              simp only [List.getD_cons_succ]
              have ih2 := ihh.2 t'
                (Nat.lt_of_succ_lt_succ (by simpa using ht))
              have harith : s_id + 1 + t' = s_id + (t' + 1) := by omega
              rw [harith] at ih2
              exact ih2

theorem catLoop_lengths (env : Env) (hm : MixtureLen env)
    (attrs nspc aug : List Nat) :
    ∀ (cats : List ConceptGroup) (i : Nat) (r : NpRng) (gl : Nat)
      sL lL r' gl',
      catLoop env attrs nspc aug i cats r gl = Except.ok (sL, lL, r', gl') →
      sL.length = cats.length ∧ lL.length = cats.length ∧
      ∀ c ∈ sL, c.length = nspc.length ∧
        ∀ t, t < nspc.length →
          (c.getD t []).length =
            (if t ∈ aug then 5 * nspc.getD t 0 else nspc.getD t 0) := by
  intro cats
  induction cats with
  | nil =>
    intro i r gl sL lL r' gl' h
    cases h
    exact ⟨rfl, rfl, fun c hc => absurd hc (by simp)⟩
  | cons cat rest ih =>
    intro i r gl sL lL r' gl' h
    rw [catLoop] at h
    cases hsp : splitLoop env cat attrs aug i 0 nspc r gl with
    | error e => rw [hsp] at h; exact Except.noConfusion h
    | ok p =>
      rw [hsp] at h
      dsimp only [exceptBind_ok] at h
      cases hrec : catLoop env attrs nspc aug (i + 1) rest p.2.2.1 p.2.2.2 with
      | error e => rw [hrec] at h; exact Except.noConfusion h
      | ok q =>
        rw [hrec] at h
        dsimp only [exceptBind_ok] at h
        cases h
        have ihh := ih (i + 1) p.2.2.1 p.2.2.2 q.1 q.2.1 q.2.2.1 q.2.2.2
          (by rw [hrec])
        have hsl := splitLoop_lengths env hm cat attrs aug i nspc 0 r gl
          p.1 p.2.1 p.2.2.1 p.2.2.2 (by rw [hsp])
        refine ⟨by simp [ihh.1], by simp [ihh.2.1], ?_⟩
        intro c hc
        rcases List.mem_cons.mp hc with hceq | hcm
        · subst hceq
          refine ⟨hsl.1, ?_⟩
          intro t ht
          have := hsl.2 t ht
          simpa using this
        · exact ihh.2.2 c hcm

theorem flatten_length_const {α : Type} (m : Nat) :
    ∀ (L : List (List α)), (∀ x ∈ L, x.length = m) →
      L.flatten.length = L.length * m
  | [], _ => by simp
  | x :: L, h => by
    have hx : x.length = m := h x (by simp)
    have hL := flatten_length_const m L (fun y hy => h y (by simp [hy]))
    simp [hx, hL, Nat.succ_mul, Nat.add_comm]

theorem getD_map_range {α : Type} (f : Nat → α) (n t : Nat) (d : α)
    (ht : t < n) : ((List.range n).map f).getD t d = f t := by
  rw [List.getD_eq_getElem _ _ (by simpa using ht)]
  simp

theorem generate_lengths (env : Env) (hm : MixtureLen env)
    (cats : List ConceptGroup) (u : Bool) (attrs : List Nat)
    (nspc aug : List Nat) (rnd : NpRng) (gl : Nat)
    (outS : List (List Sample)) (outL : List (List (List Nat))) (gl' : Nat)
    (h : _generate_samples_from_descr env cats (u, attrs) nspc aug rnd gl =
      Except.ok (outS, outL, gl')) :
    outS.length = nspc.length ∧ outL.length = nspc.length ∧
    ∀ t, t < nspc.length →
      (outS.getD t []).length =
        (if t ∈ aug then 5 * (cats.length * nspc.getD t 0)
         else cats.length * nspc.getD t 0) := by
  rw [_generate_samples_from_descr] at h
  by_cases hpre : u = true ∧ attrs = []
  · rw [if_neg (by simpa using hpre)] at h
    dsimp only at h
    cases hcat : catLoop env attrs nspc aug 0 cats rnd gl with
    | error e => rw [hcat] at h; exact Except.noConfusion h
    | ok p =>
      rw [hcat] at h
      dsimp only [exceptBind_ok] at h
      have hc := catLoop_lengths env hm attrs nspc aug cats 0 rnd gl
        p.1 p.2.1 p.2.2.1 p.2.2.2 (by rw [hcat])
      cases hp1 : p.1 with
      | nil => rw [hp1] at h; exact Except.noConfusion h
      | cons s0 srest =>
        rw [hp1] at h
        cases hs0 : s0 with
        | nil => rw [hs0] at h; exact Except.noConfusion h
        | cons z zrest =>
          rw [hs0] at h
          dsimp only at h
          cases h
          rw [hp1, hs0] at hc
          refine ⟨by simp, by simp, ?_⟩
          intro t ht
          rw [getD_map_range _ _ _ _ ht]
          have hall : ∀ x ∈ ((z :: zrest) :: srest).map
              (fun c => c.getD t []),
              x.length = (if t ∈ aug then 5 * nspc.getD t 0
                          else nspc.getD t 0) := by
            intro x hx
            obtain ⟨c, hcm, hceq⟩ := List.mem_map.mp hx
            subst hceq
            exact (hc.2.2 c hcm).2 t ht
          rw [flatten_length_const _ _ hall]
          by_cases ha : t ∈ aug
          · simp only [ha, if_true, List.length_map]
            rw [hc.1]
            ring
          · simp only [ha, if_false, List.length_map]
            rw [hc.1]
  · rw [if_pos (by simpa using hpre)] at h
    exact Except.noConfusion h

theorem mapM_ok_forall2 {α β : Type} (f : α → Except Err β) :
    ∀ (xs : List α) (ys : List β), xs.mapM f = Except.ok ys →
      List.Forall₂ (fun x y => f x = Except.ok y) xs ys := by
  intro xs
  induction xs with
  | nil =>
    intro ys h
    rw [List.mapM_nil] at h
    cases h
    exact List.Forall₂.nil
  | cons a l ih =>
    intro ys h
    rw [List.mapM_cons] at h
    cases hfa : f a with
    | error e => rw [hfa] at h; exact Except.noConfusion h
    | ok b =>
      rw [hfa] at h
      dsimp only [exceptBind_ok] at h
      cases hl : l.mapM f with
      | error e => rw [hl] at h; exact Except.noConfusion h
      | ok bs =>
        rw [hl] at h
        dsimp only [exceptBind_ok] at h
        cases h
        exact List.Forall₂.cons hfa (ih bs hl)

theorem forall2_getD_length (xs ys : List (List Sample))
    (h : List.Forall₂ (fun x y => List.length y = List.length x) xs ys) :
    ∀ t, (ys.getD t []).length = (xs.getD t []).length := by
  induction h with
  | nil => intro t; rfl
  | cons hxy hrest ih =>
    intro t
    cases t with
    | zero => simpa using hxy
    | succ t' => simpa using ih t'

/-- Claim C3: for a task materialized over `s` splits with per-split counts
`n_1..n_s` and `k` concept-groups, the sample tensor of split `t` has batch
size `k * n_t`, except the TTA-flagged split (index 1 when `tta` is on),
whose batch size is `5 * k * n_t`; and in the spec's scenario
(`samples_per_class = [10, 5, 5]`, `n_initial_classes = 3`, `tta = True`) the
first `add_task` yields 30 train, 75 validation and 15 test samples. -/
theorem c3_sample_counts :
    (∀ (env : Env) (st : GenState) (concepts : List ConceptGroup)
       (attributes : Bool × List Nat) (transformation : Transformation)
       (nspc : List Nat) (res : List (List Sample × List (List Nat)))
       (st' : GenState),
       MixtureLen env → TransLen env →
       get_samples env concepts attributes transformation nspc st =
         (Except.ok res, st') →
       res.length = nspc.length ∧
       ∀ t, t < nspc.length →
         (res.getD t ([], [])).1.length =
           (if st.tta ∧ t = 1 then 5 * (concepts.length * nspc.getD t 0)
            else concepts.length * nspc.getD t 0)) ∧
    (match (add_task envW none none stW).1 with
     | Except.ok t => t.samples.map (fun p => p.1.length) = [30, 75, 15] ∧
                      t.samples.map (fun p => p.2.length) = [30, 75, 15]
     | Except.error _ => False) := by
  constructor
  · intro env st concepts attributes transformation nspc res st' hml htr h
    rw [get_samples] at h
    cases hg : _generate_samples_from_descr env concepts attributes nspc
        (if st.tta then [1] else []) (st.rnd.randint 0 (10 ^ 9)).1
        st.torch_rng with
    | error e => rw [hg] at h; exact Prod.noConfusion h (fun h1 _ => Except.noConfusion h1)
    | ok pr =>
      rw [hg] at h
      dsimp only at h
      cases hmap : pr.1.mapM (env.applyTrans transformation) with
      | error e =>
        rw [hmap] at h
        exact Prod.noConfusion h (fun h1 _ => Except.noConfusion h1)
      | ok samples' =>
        rw [hmap] at h
        dsimp only at h
        injection h with h1 h2
        injection h1 with h3
        subst h3
        have hgen := generate_lengths env hml concepts attributes.1
          attributes.2 nspc (if st.tta then [1] else [])
          ((st.rnd.randint 0 (10 ^ 9)).1) st.torch_rng pr.1 pr.2.1 pr.2.2
          (by rw [hg])
        have hf2 := mapM_ok_forall2 (env.applyTrans transformation)
          pr.1 samples' hmap
        have hslen : samples'.length = nspc.length := by
          rw [← hf2.length_eq]
          exact hgen.1
        have hforall : List.Forall₂
            (fun x y => List.length y = List.length x) pr.1 samples' := by
          refine hf2.imp ?_
          intro x y hxy
          exact htr transformation x y hxy
        have hptw := forall2_getD_length pr.1 samples' hforall
        constructor
        · rw [List.length_zip, hslen, hgen.2.1]
          exact Nat.min_self _
        · intro t ht
          have hts : t < samples'.length := by rw [hslen]; exact ht
          have htl : t < pr.2.1.length := by rw [hgen.2.1]; exact ht
          have hzip : ((samples'.zip pr.2.1).getD t ([], [])) =
              (samples'.getD t [], pr.2.1.getD t []) := by
            rw [List.getD_eq_getElem _ _
                (by rw [List.length_zip]; exact lt_min hts htl),
              List.getElem_zip,
              List.getD_eq_getElem _ _ hts, List.getD_eq_getElem _ _ htl]
          rw [hzip]
          dsimp only
          rw [hptw t, hgen.2.2 t ht]
          by_cases hta : st.tta = true <;>
            simp [hta, List.mem_singleton]
  · exact ⟨rfl, rfl⟩

/-- The value `get_samples` produces for one concept-group, counts
`[1, 1, 1]` and TTA on, under `envW`. -/
def c3ResVal : List (List Sample × List (List Nat)) :=
  [([0], [[0]]),
   ([10001, 10002, 10003, 10004, 100], [[0], [0], [0], [0], [0]]),
   ([200], [[0]])]

/-- Witness for `c3_sample_counts`: one concept-group over splits
`[1, 1, 1]` with TTA — the validation split carries `5 * 1 * 1` samples. -/
theorem c3_sample_counts_witness :
    MixtureLen envW ∧ TransLen envW ∧
    get_samples envW [[0]] (true, []) 0 [1, 1, 1] stW =
      (Except.ok c3ResVal,
       (get_samples envW [[0]] (true, []) 0 [1, 1, 1] stW).2) ∧
    c3ResVal.length = 3 ∧
    (c3ResVal.getD 1 ([], [])).1.length = 5 * (1 * 1) := by
  have hml : MixtureLen envW := by
    intro g a n sid r xs r' h
    cases h
    simp
  have htr : TransLen envW := by
    intro t xs ys h
    cases h
    rfl
  refine ⟨hml, htr, rfl, ?_, ?_⟩
  · exact (c3_sample_counts.1 envW stW [[0]] (true, []) 0 [1, 1, 1]
      c3ResVal _ hml htr rfl).1
  · have hc := (c3_sample_counts.1 envW stW [[0]] (true, []) 0 [1, 1, 1]
      c3ResVal _ hml htr rfl).2 1 (by decide)
    simpa using hc

/-! ### Symmetry of the similarity matrices (claim C6) -/

/-- The scalar similarity a valid axis character denotes (total version of
the `get_similarity` dispatch). -/
def simValOf (env : Env) (c : Char) (t1 t2 : Task) : SimVal :=
  if c = 'x' then env.transSim t1.transformation t2.transformation
  else if c = 'y' then env.yAttrSim t1.attributes t2.attributes
  else if c = 'z' then env.catSim t1.src_concepts t2.src_concepts
  else 0

/-- Every character of the component string is a valid axis. -/
def ValidComp (comp : List Char) : Prop :=
  ∀ c ∈ comp, c = 'x' ∨ c = 'y' ∨ c = 'z'

theorem simOf_ok (env : Env) {c : Char}
    (hc : c = 'x' ∨ c = 'y' ∨ c = 'z') (t1 t2 : Task) :
    simOf env c t1 t2 = Except.ok (simValOf env c t1 t2) := by
  rcases hc with h | h | h <;> subst h <;> rfl

theorem mapM_simOf_ok (env : Env) (t1 t2 : Task) :
    ∀ comp : List Char, ValidComp comp →
      comp.mapM (fun c => simOf env c t1 t2) =
        Except.ok (comp.map (fun c => simValOf env c t1 t2)) := by
  intro comp
  induction comp with
  | nil => intro _; rfl
  | cons c rest ih =>
    intro hv
    rw [List.mapM_cons, simOf_ok env (hv c (by simp)) t1 t2]
    dsimp only [exceptBind_ok]
    rw [ih (fun c' hc' => hv c' (by simp [hc']))]
    rfl

theorem get_similarity_ok (env : Env) (t1 t2 : Task) (comp : List Char)
    (hv : ValidComp comp) :
    get_similarity env t1 t2 (some comp) =
      Except.ok (comp.map (fun c => simValOf env c t1 t2),
                 comp.map (fun c => env.timeCost c t1 t2)) := by
  rw [get_similarity]
  dsimp only [Option.getD]
  rw [mapM_simOf_ok env t1 t2 comp hv]
  rfl

theorem foldlM_eq_ok {α β : Type} (f : β → α → Except Err β) (g : β → α → β) :
    ∀ (l : List α), (∀ b, ∀ a ∈ l, f b a = Except.ok (g b a)) →
      ∀ b, l.foldlM f b = Except.ok (l.foldl g b) := by
  intro l
  induction l with
  | nil => intro _ b; rfl
  | cons a rest ih =>
    intro hfg b
    rw [List.foldlM_cons, hfg b a (by simp)]
    dsimp only [exceptBind_ok]
    rw [List.foldl_cons]
    exact ih (fun b' a' ha' => hfg b' a' (by simp [ha'])) (g b a)

/-- Pure counterpart of `simStepM` (what the step computes when the component
string is valid). -/
def simStep (env : Env) (pool : List Task) (comp : List Char) (i : Nat)
    (acc2 : (Nat → Nat → List SimVal) × List Nat) (j : Nat) :
    (Nat → Nat → List SimVal) × List Nat :=
  let t1 := pool.getD i dTask
  let t2 := pool.getD (i + j) dTask
  let sim := comp.map (fun c => simValOf env c t1 t2)
  let tm := comp.map (fun c => env.timeCost c t1 t2)
  (updMat (updMat acc2.1 i (i + j) sim) (i + j) i sim,
   List.zipWith (· + ·) acc2.2 tm)

theorem simStepM_ok (env : Env) (pool : List Task) (comp : List Char)
    (hv : ValidComp comp) (i : Nat)
    (acc2 : (Nat → Nat → List SimVal) × List Nat) (j : Nat) :
    simStepM env pool comp i acc2 j =
      Except.ok (simStep env pool comp i acc2 j) := by
  rw [simStepM, get_similarity_ok env _ _ comp hv]
  rfl

theorem foldl_preserve {α β : Type} (P : β → Prop) (f : β → α → β) :
    ∀ (l : List α), (∀ b a, P b → P (f b a)) → ∀ b, P b → P (l.foldl f b) := by
  intro l
  induction l with
  | nil => intro _ b hb; exact hb
  | cons a rest ih =>
    intro hstep b hb
    rw [List.foldl_cons]
    exact ih hstep (f b a) (hstep b a hb)

theorem upd_pair_sym (m : Nat → Nat → List SimVal) (i k : Nat)
    (v : List SimVal) (hm : ∀ a b, m a b = m b a) :
    ∀ a b, updMat (updMat m i k v) k i v a b =
      updMat (updMat m i k v) k i v b a := by
  intro a b
  unfold updMat
  split_ifs <;> first | rfl | exact hm a b | tauto

/-- One full row `i` of the upper-triangle iteration (the pure fold the
inner loop computes). -/
def simRow (env : Env) (pool : List Task) (comp : List Char)
    (acc : (Nat → Nat → List SimVal) × List Nat) (i : Nat) :
    (Nat → Nat → List SimVal) × List Nat :=
  (List.range (pool.length - i)).foldl (simStep env pool comp i) acc

theorem simStep_offdiag (env : Env) (pool : List Task) (comp : List Char)
    (i : Nat) (acc2 : (Nat → Nat → List SimVal) × List Nat) (j : Nat)
    (hj : j ≠ 0) (d : Nat) :
    (simStep env pool comp i acc2 j).1 d d = acc2.1 d d := by
  dsimp only [simStep, updMat]
  split_ifs with h1 h2
  · obtain ⟨ha, hb⟩ := h1
    omega
  · obtain ⟨ha, hb⟩ := h2
    omega
  · rfl

theorem simRow_diag (env : Env) (pool : List Task) (comp : List Char)
    (i : Nat) (hi : i < pool.length)
    (acc2 : (Nat → Nat → List SimVal) × List Nat) (d : Nat) :
    (simRow env pool comp acc2 i).1 d d =
      if d = i then
        comp.map (fun c =>
          simValOf env c (pool.getD i dTask) (pool.getD i dTask))
      else acc2.1 d d := by
  unfold simRow
  have hn : pool.length - i = (pool.length - i - 1) + 1 := by omega
  rw [hn, List.range_succ_eq_map, List.foldl_cons]
  have hrest : ∀ (js : List Nat), (∀ j ∈ js, j ≠ 0) →
      ∀ acc : (Nat → Nat → List SimVal) × List Nat,
        ((js.foldl (simStep env pool comp i) acc).1 d d) = acc.1 d d := by
    intro js
    induction js with
    | nil => intro _ acc; rfl
    | cons j rest ih =>
      intro hnz acc
      rw [List.foldl_cons,
          ih (fun j' hj' => hnz j' (by simp [hj'])) _]
      exact simStep_offdiag env pool comp i acc j (hnz j (by simp)) d
  rw [hrest _ (by
    intro j hj
    obtain ⟨j', _, hj'⟩ := List.mem_map.mp hj
    omega) _]
  dsimp only [simStep, updMat]
  by_cases hd : d = i
  · simp [hd]
  · simp [hd]

theorem simAll_diag (env : Env) (pool : List Task) (comp : List Char) :
    ∀ (rows : List Nat) (acc : (Nat → Nat → List SimVal) × List Nat),
      (∀ r ∈ rows, r < pool.length) → ∀ d,
        ((rows.foldl (simRow env pool comp) acc).1 d d) =
          if d ∈ rows then
            comp.map (fun c =>
              simValOf env c (pool.getD d dTask) (pool.getD d dTask))
          else acc.1 d d := by
  intro rows
  induction rows with
  | nil => intro acc _ d; simp
  | cons i rest ih =>
    intro acc hb d
    rw [List.foldl_cons, ih _ (fun r hr => hb r (by simp [hr])) d]
    by_cases hd1 : d ∈ rest
    · simp [hd1]
    · rw [simRow_diag env pool comp i (hb i (by simp)) acc]
      by_cases hd2 : d = i
      · simp [hd1, hd2]
      · simp [hd1, hd2]

theorem simAll_sym (env : Env) (pool : List Task) (comp : List Char)
    (rows : List Nat) (acc : (Nat → Nat → List SimVal) × List Nat)
    (hacc : ∀ a b, acc.1 a b = acc.1 b a) :
    ∀ a b, ((rows.foldl (simRow env pool comp) acc).1 a b) =
      ((rows.foldl (simRow env pool comp) acc).1 b a) := by
  refine foldl_preserve (fun x => ∀ a b, x.1 a b = x.1 b a)
    (simRow env pool comp) rows ?_ acc hacc
  intro x i hx
  refine foldl_preserve (fun x2 => ∀ a b, x2.1 a b = x2.1 b a)
    (simStep env pool comp i) (List.range (pool.length - i)) ?_ x hx
  intro x2 j h2 a b
  exact upd_pair_sym x2.1 i (i + j) _ h2 a b

/-- Claim C6: for every generator and every component string of valid axis
characters, `get_similarities` succeeds and returns one matrix per axis
character (keyed in order by the characters of the request); every returned
matrix `M` satisfies `M[a][b] == M[b][a]` for all indices, and `M[i][i]`
equals the self-similarity value of task `i` on that axis. -/
theorem c6_similarity_symmetry (env : Env) (st : GenState) (comp : List Char)
    (hv : ValidComp comp) :
    ∃ mats warns,
      get_similarities env st (some comp) = Except.ok (mats, warns) ∧
      mats.map Prod.fst = comp ∧
      mats.length = comp.length ∧
      ∀ p ∈ mats,
        (∀ a b, p.2 a b = p.2 b a) ∧
        (∀ i (h : i < st.task_pool.length),
          p.2 i i = simValOf env p.1 (st.task_pool.get ⟨i, h⟩)
            (st.task_pool.get ⟨i, h⟩)) := by
  have hfold := foldlM_eq_ok
    (fun acc i => (List.range (st.task_pool.length - i)).foldlM
      (simStepM env st.task_pool comp i) acc)
    (simRow env st.task_pool comp)
    (List.range st.task_pool.length)
    (fun acc i _ => foldlM_eq_ok _ _ _
      (fun b a _ => simStepM_ok env st.task_pool comp hv i b a) acc)
    (fun _ _ => List.replicate comp.length (0 : SimVal),
     List.replicate comp.length (0 : Nat))
  refine ⟨comp.enum.map (fun p => (p.2, fun a b =>
      ((((List.range st.task_pool.length).foldl (simRow env st.task_pool comp)
        (fun _ _ => List.replicate comp.length (0 : SimVal),
         List.replicate comp.length (0 : Nat))).1 a b).getD p.1 0))),
    ((comp.zip (((List.range st.task_pool.length).foldl
        (simRow env st.task_pool comp)
        (fun _ _ => List.replicate comp.length (0 : SimVal),
         List.replicate comp.length (0 : Nat))).2)).filter
      (fun p => 1 < p.2)).map Prod.fst,
    ?_, ?_, ?_, ?_⟩
  · rw [get_similarities]
    dsimp only [Option.getD]
    rw [hfold]
    rfl
  · rw [List.map_map]
    exact List.enum_map_snd comp
  · rw [List.length_map, List.enum_length]
  · intro p hp
    obtain ⟨q, hq, rfl⟩ := List.mem_map.mp hp
    have hvq := List.mem_enum_iff_getElem?.mp hq
    rw [List.getElem?_eq_some] at hvq
    obtain ⟨hk2, hval⟩ := hvq
    constructor
    · intro a b
      dsimp only
      rw [simAll_sym env st.task_pool comp (List.range st.task_pool.length) _
        (fun a b => rfl) a b]
    · intro i h
      dsimp only
      rw [simAll_diag env st.task_pool comp (List.range st.task_pool.length) _
        (fun r hr => List.mem_range.mp hr) i,
        if_pos (List.mem_range.mpr h),
        List.getD_eq_getElem _ _ (by simpa using hk2),
        List.getElem_map, hval]
      have hgd : st.task_pool.getD i dTask = st.task_pool.get ⟨i, h⟩ := by
        rw [List.getD_eq_getElem _ _ (by simpa using h)]
        simp [List.get_eq_getElem]
      rw [hgd]

/-- Witness for `c6_similarity_symmetry`: the default axes over a one-task
pool. -/
theorem c6_similarity_symmetry_witness :
    ValidComp ['x', 'y', 'z'] ∧
    (∃ mats warns,
      get_similarities envW stP (some ['x', 'y', 'z']) =
        Except.ok (mats, warns) ∧
      mats.map Prod.fst = ['x', 'y', 'z'] ∧
      mats.length = (['x', 'y', 'z'] : List Char).length ∧
      ∀ p ∈ mats,
        (∀ a b, p.2 a b = p.2 b a) ∧
        (∀ i (h : i < stP.task_pool.length),
          p.2 i i = simValOf envW p.1 (stP.task_pool.get ⟨i, h⟩)
            (stP.task_pool.get ⟨i, h⟩))) := by
  have hv : ValidComp ['x', 'y', 'z'] := by
    intro c hc
    rcases List.mem_cons.mp hc with rfl | hc
    · exact Or.inl rfl
    rcases List.mem_cons.mp hc with rfl | hc
    · exact Or.inr (Or.inl rfl)
    rcases List.mem_cons.mp hc with rfl | hc
    · exact Or.inr (Or.inr rfl)
    · exact absurd hc (by simp)
  exact ⟨hv, c6_similarity_symmetry envW stP ['x', 'y', 'z'] hv⟩

end CTrL